import Mathlib

/-!
Shallow embedding of `src/wrapper/eta_codec.py` (the ETA codec pipeline) and
verification of its specification claims.

Conventions of the embedding:
* Python `bytes` values are `List Nat` with every element below 256.
* Python `str` values are `List Nat` of Unicode codepoints (Python strings may
  contain lone surrogates, so codepoints are not restricted to scalar values).
* `str.encode()` / `bytes.decode()` are the strict UTF-8 codec, embedded as
  `utf8Encode` / `utf8Decode`, returning `none` where Python raises
  `UnicodeEncodeError` / `UnicodeDecodeError`.
* Fallible operations return `Option` or `Except PyErr`; the `PyErr`
  constructors name the error kinds used by the specification.
* The third-party `base32hex` module is not part of the repository source.
  Its two functions are modelled from the spec: RFC 4648 base32hex with the
  alphabet `0`-`9` then lowercase `a`-`v`, padding `=`, decoding failures
  (invalid symbols or padding) reported as `MalformedEncodingError`, and the
  empty string decoding to the empty buffer.
* `base64.b64encode` and `base64.b64decode(..., validate=False)` are embedded
  following CPython `binascii`: `a2b_base64` in non-strict mode skips
  characters outside the alphabet, resets its padding counter at every data
  character, stops successfully at padding that completes a quad of at least
  two data characters, and fails on a trailing partial quad.
-/

namespace EtaCodec

/-- Error kinds of the decode pipeline: `MalformedEncodingError` (base codec
decode failures), `FrameFormatError` (the `ValueError` raised by
`struct_unwrap`), and the Unicode codec errors raised by `bytes.decode()` and
`str.encode()`. -/
inductive PyErr where
  | malformedEncoding
  | frameFormat
  | unicodeDecode
  | unicodeEncode
  deriving DecidableEq, Repr

deriving instance DecidableEq for Except

/-- A codepoint is a Unicode scalar value (encodable by Python UTF-8): below
0x110000 and not a surrogate. -/
def isScalar (c : Nat) : Bool :=
  decide (c < 1114112) && !(decide (55296 ≤ c) && decide (c ≤ 57343))

/-- Strict UTF-8 encoding of one codepoint, as in Python `str.encode()`:
lone surrogates and codepoints beyond U+10FFFF are rejected. -/
def utf8EncodeChar (c : Nat) : Option (List Nat) :=
  if c < 128 then some [c]
  else if c < 2048 then some [192 + c / 64, 128 + c % 64]
  else if c < 65536 then
    if 55296 ≤ c ∧ c ≤ 57343 then none
    else some [224 + c / 4096, 128 + c / 64 % 64, 128 + c % 64]
  else if c < 1114112 then
    some [240 + c / 262144, 128 + c / 4096 % 64, 128 + c / 64 % 64, 128 + c % 64]
  else none

/-- Embedding of Python `str.encode()` (strict UTF-8) on a codepoint list. -/
def utf8Encode : List Nat → Option (List Nat)
  | [] => some []
  | c :: cs =>
    match utf8EncodeChar c, utf8Encode cs with
    | some bs, some rest => some (bs ++ rest)
    | _, _ => none

/-- A UTF-8 continuation byte. -/
def isCont (b : Nat) : Bool := decide (128 ≤ b) && decide (b ≤ 191)

/-- Byte scanner of the strict UTF-8 decoder: `need` is the number of
continuation bytes still expected for the current codepoint, `cp` its
accumulated high bits, `lo`/`hi` the admissible range of the next byte
(restricted after the lead byte to exclude overlong forms, surrogates and
codepoints beyond U+10FFFF), `acc` the reversed output. -/
def utf8DecodeAux : List Nat → Nat → Nat → Nat → Nat → List Nat → Option (List Nat)
  | [], 0, _, _, _, acc => some acc.reverse
  | [], _ + 1, _, _, _, _ => none
  | b :: rest, 0, _, _, _, acc =>
    if b < 128 then utf8DecodeAux rest 0 0 0 0 (b :: acc)
    else if 194 ≤ b ∧ b ≤ 223 then utf8DecodeAux rest 1 (b - 192) 128 191 acc
    else if b = 224 then utf8DecodeAux rest 2 0 160 191 acc
    else if b = 237 then utf8DecodeAux rest 2 13 128 159 acc
    else if 224 ≤ b ∧ b ≤ 239 then utf8DecodeAux rest 2 (b - 224) 128 191 acc
    else if b = 240 then utf8DecodeAux rest 3 0 144 191 acc
    else if b = 244 then utf8DecodeAux rest 3 4 128 143 acc
    else if 240 ≤ b ∧ b ≤ 244 then utf8DecodeAux rest 3 (b - 240) 128 191 acc
    else none
  | b :: rest, n + 1, cp, lo, hi, acc =>
    if lo ≤ b ∧ b ≤ hi then
      match n with
      | 0 => utf8DecodeAux rest 0 0 0 0 ((cp * 64 + (b - 128)) :: acc)
      | m + 1 => utf8DecodeAux rest (m + 1) (cp * 64 + (b - 128)) 128 191 acc
    else none

/-- Embedding of Python `bytes.decode()` (strict UTF-8): rejects overlong
forms, surrogates and out-of-range sequences. -/
def utf8Decode (l : List Nat) : Option (List Nat) := utf8DecodeAux l 0 0 0 0 []

/-- Decimal rendering of a natural number below 100, the embedding of Python
`str(n)` on the ranges used by the substitution tables. -/
def decimalRender (n : Nat) : List Nat :=
  if n < 10 then [48 + n] else [48 + n / 10, 48 + n % 10]

/-- Codepoints of the dict-comprehension key string `"abcdefghijklmnop"` in
`regex_a_p_transform`. -/
def aTableKeys : List Nat :=
  [97, 98, 99, 100, 101, 102, 103, 104, 105, 106, 107, 108, 109, 110, 111, 112]

/-- The mapping dict of `regex_a_p_transform`:
`{c: str(((ord(c) - ord('a')) % 5) + 1) for c in "abcdefghijklmnop"}`. -/
def aTable : List (Nat × List Nat) :=
  aTableKeys.map (fun c => (c, decimalRender ((c - 97) % 5 + 1)))

/-- Codepoints of the key string `"fghijklmnopqrstuvwx"` in
`regex_f_x_transform`. -/
def fTableKeys : List Nat :=
  [102, 103, 104, 105, 106, 107, 108, 109, 110, 111, 112, 113, 114, 115, 116,
   117, 118, 119, 120]

/-- The mapping dict of `regex_f_x_transform`:
`{c: str(((ord(c) - ord('f')) % 4) + 9) for c in "fghijklmnopqrstuvwx"}`. -/
def fTable : List (Nat × List Nat) :=
  fTableKeys.map (fun c => (c, decimalRender ((c - 102) % 4 + 9)))

/-- Embedding of `regex_a_p_transform`: per-character dict lookup with
identity fallback, concatenated (`''.join(mapping.get(ch, ch) for ch in text)`). -/
def regex_a_p_transform (text : List Nat) : List Nat :=
  (text.map (fun ch => (aTable.lookup ch).getD [ch])).flatten

/-- Embedding of `regex_f_x_transform`. -/
def regex_f_x_transform (text : List Nat) : List Nat :=
  (text.map (fun ch => (fTable.lookup ch).getD [ch])).flatten

/-- Embedding of `xor_binary` with the fixed default key `0x5A` (the only key
the module ever uses). -/
def xor_binary (data : List Nat) : List Nat := data.map (fun b => b ^^^ 90)

/-- ASCII bytes of the literal marker `[ETA_HEADER]`. -/
def etaHeader : List Nat := [91, 69, 84, 65, 95, 72, 69, 65, 68, 69, 82, 93]

/-- ASCII bytes of the literal marker `[ETA_FOOTER]`. -/
def etaFooter : List Nat := [91, 69, 84, 65, 95, 70, 79, 79, 84, 69, 82, 93]

/-- Embedding of `struct_wrap`. -/
def struct_wrap (data : List Nat) : List Nat := etaHeader ++ data ++ etaFooter

/-- Embedding of `struct_unwrap`: `data[len(header):-len(footer)]` guarded by
`startswith`/`endswith`, raising `FrameFormatError` otherwise. -/
def struct_unwrap (data : List Nat) : Except PyErr (List Nat) :=
  if etaHeader.isPrefixOf data && etaFooter.isSuffixOf data then
    .ok ((data.drop 12).take (data.length - 24))
  else .error .frameFormat

/-- Character of the standard base64 alphabet at a given index
(`A`-`Z`, `a`-`z`, `0`-`9`, `+`, `/`). -/
def b64EncChar (v : Nat) : Nat :=
  if v < 26 then 65 + v
  else if v < 52 then 71 + v
  else if v < 62 then v - 4
  else if v = 62 then 43
  else 47

/-- Value of a base64 alphabet character (the `binascii` decode table);
`none` for characters outside the alphabet. -/
def b64DecChar (c : Nat) : Option Nat :=
  if 65 ≤ c ∧ c ≤ 90 then some (c - 65)
  else if 97 ≤ c ∧ c ≤ 122 then some (c - 71)
  else if 48 ≤ c ∧ c ≤ 57 then some (c + 4)
  else if c = 43 then some 62
  else if c = 47 then some 63
  else none

/-- Embedding of `base64.b64encode` on bytes: 3-byte groups to 4 symbols,
with `=` padding (codepoint 61) for partial final groups. -/
def b64encode : List Nat → List Nat
  | [] => []
  | [x] => [b64EncChar (x / 4), b64EncChar (x % 4 * 16), 61, 61]
  | [x, y] => [b64EncChar (x / 4), b64EncChar (x % 4 * 16 + y / 16),
               b64EncChar (y % 16 * 4), 61]
  | x :: y :: z :: rest =>
    b64EncChar (x / 4) :: b64EncChar (x % 4 * 16 + y / 16) ::
    b64EncChar (y % 16 * 4 + z / 64) :: b64EncChar (z % 64) ::
    b64encode rest

/-- The character-scanning loop of `binascii.a2b_base64` in non-strict mode
(the semantics of `base64.b64decode(s, validate=False)`): state is the
position in the current quad, the pending high bits, the count of padding
characters since the last data character, and the reversed output. -/
def a2bBase64Aux : List Nat → Nat → Nat → Nat → List Nat → Option (List Nat)
  | [], quad, _, _, acc => if quad = 0 then some acc.reverse else none
  | c :: rest, quad, leftc, pads, acc =>
    if c = 61 then
      if 2 ≤ quad ∧ 4 ≤ quad + (pads + 1) then some acc.reverse
      else a2bBase64Aux rest quad leftc (pads + 1) acc
    else
      match b64DecChar c with
      | none => a2bBase64Aux rest quad leftc pads acc
      | some v =>
        match quad with
        | 0 => a2bBase64Aux rest 1 v 0 acc
        | 1 => a2bBase64Aux rest 2 (v % 16) 0 ((leftc * 4 + v / 16) :: acc)
        | 2 => a2bBase64Aux rest 3 (v % 4) 0 ((leftc * 16 + v / 4) :: acc)
        | _ => a2bBase64Aux rest 0 0 0 ((leftc * 64 + v) :: acc)

/-- Embedding of `base64.b64decode(s, validate=False)`; `none` stands for
`binascii.Error` (the `MalformedEncodingError` kind). -/
def b64decode (s : List Nat) : Option (List Nat) := a2bBase64Aux s 0 0 0 []

/-- Modelled from the spec: character of the base32hex alphabet (digits
`0`-`9` then lowercase `a`-`v`) at a given index; the third-party
`base32hex` module is not part of the repository source. -/
def b32EncChar (v : Nat) : Nat := if v < 10 then 48 + v else 87 + v

/-- Modelled from the spec: value of a base32hex alphabet character. -/
def b32DecChar (c : Nat) : Option Nat :=
  if 48 ≤ c ∧ c ≤ 57 then some (c - 48)
  else if 97 ≤ c ∧ c ≤ 118 then some (c - 87)
  else none

/-- Modelled from the spec: `base32hex.b32encode` on bytes, RFC 4648
base32hex: 5-byte groups to 8 symbols, partial groups of 1, 2, 3, 4 bytes to
2, 4, 5, 7 symbols followed by `=` padding to a multiple of 8. -/
def b32encode : List Nat → List Nat
  | [] => []
  | [a] => [b32EncChar (a / 8), b32EncChar (a % 8 * 4), 61, 61, 61, 61, 61, 61]
  | [a, b] => [b32EncChar (a / 8), b32EncChar (a % 8 * 4 + b / 64),
               b32EncChar (b / 2 % 32), b32EncChar (b % 2 * 16), 61, 61, 61, 61]
  | [a, b, c] => [b32EncChar (a / 8), b32EncChar (a % 8 * 4 + b / 64),
                  b32EncChar (b / 2 % 32), b32EncChar (b % 2 * 16 + c / 16),
                  b32EncChar (c % 16 * 2), 61, 61, 61]
  | [a, b, c, d] => [b32EncChar (a / 8), b32EncChar (a % 8 * 4 + b / 64),
                     b32EncChar (b / 2 % 32), b32EncChar (b % 2 * 16 + c / 16),
                     b32EncChar (c % 16 * 2 + d / 128), b32EncChar (d / 4 % 32),
                     b32EncChar (d % 4 * 8), 61]
  | a :: b :: c :: d :: e :: rest =>
    b32EncChar (a / 8) :: b32EncChar (a % 8 * 4 + b / 64) ::
    b32EncChar (b / 2 % 32) :: b32EncChar (b % 2 * 16 + c / 16) ::
    b32EncChar (c % 16 * 2 + d / 128) :: b32EncChar (d / 4 % 32) ::
    b32EncChar (d % 4 * 8 + e / 32) :: b32EncChar (e % 32) ::
    b32encode rest

/-- Values of a list of base32hex symbols; `none` if any character is outside
the alphabet (in particular on a padding character). -/
def decodeSyms : List Nat → Option (List Nat)
  | [] => some []
  | c :: cs =>
    match b32DecChar c, decodeSyms cs with
    | some v, some vs => some (v :: vs)
    | _, _ => none

/-- The final 8-symbol group of a base32hex string with its trailing padding
characters removed. -/
def b32Body (g : List Nat) : List Nat :=
  g.take (g.length - (g.reverse.takeWhile (fun c => c == 61)).length)

/-- Modelled from the spec: decoding of the final (possibly padded) 8-symbol
group; the unpadded part must have length 8, 7, 5, 4 or 2 and consist of
alphabet symbols only. -/
def b32decodeFinal (g : List Nat) : Option (List Nat) :=
  match decodeSyms (b32Body g) with
  | none => none
  | some vs =>
    match vs with
    | [v0, v1] => some [v0 * 8 + v1 / 4]
    | [v0, v1, v2, v3] =>
      some [v0 * 8 + v1 / 4, v1 % 4 * 64 + v2 * 2 + v3 / 16]
    | [v0, v1, v2, v3, v4] =>
      some [v0 * 8 + v1 / 4, v1 % 4 * 64 + v2 * 2 + v3 / 16,
            v3 % 16 * 16 + v4 / 2]
    | [v0, v1, v2, v3, v4, v5, v6] =>
      some [v0 * 8 + v1 / 4, v1 % 4 * 64 + v2 * 2 + v3 / 16,
            v3 % 16 * 16 + v4 / 2, v4 % 2 * 128 + v5 * 4 + v6 / 8]
    | [v0, v1, v2, v3, v4, v5, v6, v7] =>
      some [v0 * 8 + v1 / 4, v1 % 4 * 64 + v2 * 2 + v3 / 16,
            v3 % 16 * 16 + v4 / 2, v4 % 2 * 128 + v5 * 4 + v6 / 8,
            v6 % 8 * 32 + v7]
    | _ => none

/-- Decoding of one full (non-final) 8-symbol group: padding is not allowed
and all symbols must be in the alphabet. -/
def b32FullGroup (g : List Nat) : Option (List Nat) :=
  match decodeSyms g with
  | none => none
  | some vs =>
    match vs with
    | [v0, v1, v2, v3, v4, v5, v6, v7] =>
      some [v0 * 8 + v1 / 4, v1 % 4 * 64 + v2 * 2 + v3 / 16,
            v3 % 16 * 16 + v4 / 2, v4 % 2 * 128 + v5 * 4 + v6 / 8,
            v6 % 8 * 32 + v7]
    | _ => none

/-- Group recursion of the base32hex decoder: input length must be a multiple
of 8, padding may appear only in the final group. -/
def b32decodeAux : List Nat → Option (List Nat)
  | [] => some []
  | c0 :: c1 :: c2 :: c3 :: c4 :: c5 :: c6 :: c7 :: rest =>
    if rest.isEmpty then b32decodeFinal [c0, c1, c2, c3, c4, c5, c6, c7]
    else
      match b32FullGroup [c0, c1, c2, c3, c4, c5, c6, c7] with
      | none => none
      | some bs =>
        match b32decodeAux rest with
        | none => none
        | some bs2 => some (bs ++ bs2)
  | _ => none

/-- Modelled from the spec: `base32hex.b32decode`; `none` stands for the
`MalformedEncodingError` kind. The empty string decodes to the empty buffer. -/
def b32decode (s : List Nat) : Option (List Nat) := b32decodeAux s

/-- Input of `encode_datetime`: a structured `datetime` value or a
pre-formatted string (Python `Union[str, datetime]`). -/
inductive EtaInput where
  | dt (year month day hour minute second : Nat)
  | str (s : List Nat)
  deriving DecidableEq, Repr

/-- Two-digit zero-padded decimal rendering (strftime `%m`, `%d`, `%H`,
`%M`, `%S`; the fields are below 100 for every `datetime` value). -/
def pad2 (n : Nat) : List Nat := [48 + n / 10 % 10, 48 + n % 10]

/-- Four-digit zero-padded year. Modelled from the spec: the canonical
pattern is the fixed-width `YYYY-MM-DD HH:MM:SS`; `strftime("%Y")` padding
below year 1000 is platform libc behavior not fixed by the source. -/
def pad4 (n : Nat) : List Nat :=
  [48 + n / 1000 % 10, 48 + n / 100 % 10, 48 + n / 10 % 10, 48 + n % 10]

/-- Embedding of `dt.strftime("%Y-%m-%d %H:%M:%S")`. -/
def strftimeCanon (y mo d h mi s : Nat) : List Nat :=
  pad4 y ++ [45] ++ pad2 mo ++ [45] ++ pad2 d ++ [32] ++
  pad2 h ++ [58] ++ pad2 mi ++ [58] ++ pad2 s

/-- The canonical string fed to the pipeline: `strftime` output for a
structured value, the string itself otherwise (first branch of
`encode_datetime`). -/
def canonText : EtaInput → List Nat
  | .dt y mo d h mi s => strftimeCanon y mo d h mi s
  | .str s => s

/-- Embedding of `encode_datetime`: canonicalize, base64, substitution table
A then table B, XOR, frame wrap, base32hex; every `.encode()`/`.decode()` of
the source is embedded explicitly. -/
def encode_datetime (dt : EtaInput) : Except PyErr (List Nat) :=
  let dt_str := canonText dt
  match utf8Encode dt_str with
  | none => .error .unicodeEncode
  | some bs =>
    match utf8Decode (b64encode bs) with
    | none => .error .unicodeDecode
    | some step1 =>
      let step2 := regex_a_p_transform step1
      let step3 := regex_f_x_transform step2
      match utf8Encode step3 with
      | none => .error .unicodeEncode
      | some step3bytes =>
        let step4 := xor_binary step3bytes
        let step5 := struct_wrap step4
        match utf8Decode (b32encode step5) with
        | none => .error .unicodeDecode
        | some token => .ok token

/-- Embedding of `decode_eta`: base32hex decode, frame unwrap, XOR,
UTF-8 interpretation, then the guarded base64 decode whose whole
`try` body (`base64.b64decode(step4.encode(), validate=False).decode()`)
falls back to `step4` on any failure. -/
def decode_eta (encoded : List Nat) : Except PyErr (List Nat) :=
  match utf8Encode encoded with
  | none => .error .unicodeEncode
  | some encBytes =>
    match b32decode encBytes with
    | none => .error .malformedEncoding
    | some step1 =>
      match struct_unwrap step1 with
      | .error e => .error e
      | .ok step2 =>
        let step3 := xor_binary step2
        match utf8Decode step3 with
        | none => .error .unicodeDecode
        | some step4 =>
          .ok (match utf8Encode step4 with
               | none => step4
               | some sbs =>
                 match b64decode sbs with
                 | none => step4
                 | some dec =>
                   match utf8Decode dec with
                   | none => step4
                   | some res => res)

/-- Codepoints of the sentinel line `BEGIN_ETA`. -/
def beginSentinel : List Nat := [66, 69, 71, 73, 78, 95, 69, 84, 65]

/-- Codepoints of the sentinel line `END_ETA`. -/
def endSentinel : List Nat := [69, 78, 68, 95, 69, 84, 65]

/-- Embedding of `write_eta_file`, file system abstracted away: the result is
the text content written to the file (`BEGIN_ETA\n`, token line, `END_ETA\n`). -/
def write_eta_file (dt : EtaInput) : Except PyErr (List Nat) :=
  match encode_datetime dt with
  | .error e => .error e
  | .ok encoded =>
    .ok (beginSentinel ++ [10] ++ encoded ++ [10] ++ endSentinel ++ [10])

/-- Python `str` whitespace (the characters stripped by `str.strip()`). -/
def pyIsSpace (c : Nat) : Bool :=
  decide (c = 9 ∨ c = 10 ∨ c = 11 ∨ c = 12 ∨ c = 13 ∨ (28 ≤ c ∧ c ≤ 32) ∨
    c = 133 ∨ c = 160 ∨ c = 5760 ∨ (8192 ≤ c ∧ c ≤ 8202) ∨ c = 8232 ∨
    c = 8233 ∨ c = 8239 ∨ c = 8287 ∨ c = 12288)

/-- Embedding of `str.strip()`. -/
def pyStrip (l : List Nat) : List Nat :=
  ((l.dropWhile pyIsSpace).reverse.dropWhile pyIsSpace).reverse

/-- Python line-break characters recognized by `str.splitlines()`. -/
def isLineTerm (c : Nat) : Bool :=
  decide (c = 10 ∨ c = 11 ∨ c = 12 ∨ c = 13 ∨ c = 28 ∨ c = 29 ∨ c = 30 ∨
    c = 133 ∨ c = 8232 ∨ c = 8233)

/-- Scanner of `str.splitlines()`: `cur` is the reversed current line; the
pair `\r\n` counts as one break; a terminator at the very end does not open
a trailing empty line. -/
def splitlinesAux : List Nat → List Nat → List (List Nat)
  | [], cur => [cur.reverse]
  | [c], cur =>
    if isLineTerm c then [cur.reverse] else [(c :: cur).reverse]
  | c :: c2 :: r, cur =>
    if c = 13 ∧ c2 = 10 then
      cur.reverse :: (if r = [] then [] else splitlinesAux r [])
    else if isLineTerm c then
      cur.reverse :: splitlinesAux (c2 :: r) []
    else splitlinesAux (c2 :: r) (c :: cur)

/-- Embedding of `str.splitlines()`. -/
def pySplitlines (l : List Nat) : List (List Nat) :=
  match l with
  | [] => []
  | _ => splitlinesAux l []

/-- Embedding of `read_eta_file`, file system abstracted away: the argument
is the text content of the file; non-sentinel lines are concatenated and
decoded. -/
def read_eta_file (content : List Nat) : Except PyErr (List Nat) :=
  let lines := pySplitlines (pyStrip content)
  let encoded :=
    (lines.filter (fun ln => decide (ln ≠ beginSentinel ∧ ln ≠ endSentinel))).flatten
  decode_eta encoded

/-- The intermediate text of decode step 3 (base32hex decode, frame unwrap,
XOR, UTF-8 interpretation), the value `decode_eta` falls back to. -/
def decodePre (t : List Nat) : Option (List Nat) :=
  match utf8Encode t with
  | none => none
  | some bs =>
    match b32decode bs with
    | none => none
    | some step1 =>
      match struct_unwrap step1 with
      | .error _ => none
      | .ok step2 => utf8Decode (xor_binary step2)

/-- The guarded final stage of `decode_eta`: base64 decode of the
intermediate text and UTF-8 interpretation of the result, `none` on any
failure. -/
def b64Reinterpret (t : List Nat) : Option (List Nat) :=
  match utf8Encode t with
  | none => none
  | some sbs =>
    match b64decode sbs with
    | none => none
    | some dec => utf8Decode dec

/-- The result of the final stage of `decode_eta`: the reinterpretation when
it succeeds, the intermediate text itself otherwise. -/
def reinterpretOrFallback (t : List Nat) : List Nat := (b64Reinterpret t).getD t

/-- The substituted intermediate text `encode_datetime` produces at its step
3 (base64 text after both substitution passes). -/
def substText (x : EtaInput) : List Nat :=
  regex_f_x_transform (regex_a_p_transform
    ((utf8Decode (b64encode ((utf8Encode (canonText x)).getD []))).getD []))

/-! Helper lemmas about the embedded operations. -/

/-- UTF-8 encoding is the identity on ASCII codepoint lists. -/
theorem utf8Encode_ascii {l : List Nat} (h : ∀ c ∈ l, c < 128) :
    utf8Encode l = some l := by
  induction l with
  | nil => rfl
  | cons c cs ih =>
    have hc : c < 128 := h c (by simp)
    have hcs := ih (fun a ha => h a (by simp [ha]))
    simp [utf8Encode, utf8EncodeChar, hc, hcs]

/-- The UTF-8 scanner copies ASCII byte lists into its accumulator. -/
theorem utf8DecodeAux_ascii {l : List Nat} (h : ∀ c ∈ l, c < 128) (acc : List Nat) :
    utf8DecodeAux l 0 0 0 0 acc = some (acc.reverse ++ l) := by
  induction l generalizing acc with
  | nil => simp [utf8DecodeAux]
  | cons b rest ih =>
    have hb : b < 128 := h b (by simp)
    have hrest := ih (fun a ha => h a (by simp [ha])) (b :: acc)
    simp only [utf8DecodeAux]
    rw [if_pos hb, hrest]
    simp

/-- UTF-8 decoding is the identity on ASCII byte lists. -/
theorem utf8Decode_ascii {l : List Nat} (h : ∀ c ∈ l, c < 128) :
    utf8Decode l = some l := by
  unfold utf8Decode
  rw [utf8DecodeAux_ascii h]
  simp

/-- UTF-8 encoding of a single scalar codepoint succeeds. -/
theorem utf8EncodeChar_scalar {c : Nat} (h : isScalar c = true) :
    ∃ bs, utf8EncodeChar c = some bs := by
  simp only [isScalar, Bool.and_eq_true, Bool.not_eq_true', Bool.and_eq_false_iff,
    decide_eq_true_eq, decide_eq_false_iff_not] at h
  unfold utf8EncodeChar
  split_ifs <;> first
    | exact ⟨_, rfl⟩
    | (exfalso; omega)

/-- UTF-8 encoding of a list of scalar codepoints succeeds. -/
theorem utf8Encode_scalar {l : List Nat} (h : ∀ c ∈ l, isScalar c = true) :
    ∃ bs, utf8Encode l = some bs := by
  induction l with
  | nil => exact ⟨[], rfl⟩
  | cons c cs ih =>
    obtain ⟨b1, hb1⟩ := utf8EncodeChar_scalar (h c (by simp))
    obtain ⟨b2, hb2⟩ := ih (fun a ha => h a (by simp [ha]))
    exact ⟨b1 ++ b2, by simp [utf8Encode, hb1, hb2]⟩

/-- The XOR mask is self-inverse. -/
theorem xor_binary_involutive (l : List Nat) : xor_binary (xor_binary l) = l := by
  have h : ∀ b : Nat, (b ^^^ 90) ^^^ 90 = b := fun b => Nat.xor_cancel_right 90 b
  simp [xor_binary, List.map_map, Function.comp_def, h]

/-- The XOR mask maps bytes to bytes. -/
theorem xor_binary_lt {l : List Nat} (h : ∀ b ∈ l, b < 256) :
    ∀ b ∈ xor_binary l, b < 256 := by
  intro b hb
  simp only [xor_binary, List.mem_map] at hb
  obtain ⟨a, ha, rfl⟩ := hb
  have h1 : a < 2 ^ 8 := by norm_num; exact h a ha
  have h2 : (90 : Nat) < 2 ^ 8 := by norm_num
  have h3 := Nat.xor_lt_two_pow h1 h2
  norm_num at h3
  exact h3

/-- The base64 decode table inverts the encode table. -/
theorem b64_dec_enc : ∀ v < 64, b64DecChar (b64EncChar v) = some v := by decide

/-- Base64 alphabet characters are not the padding character. -/
theorem b64EncChar_ne_pad : ∀ v < 64, b64EncChar v ≠ 61 := by decide

/-- Every character produced by the base64 encode table is ASCII. -/
theorem b64EncChar_lt (v : Nat) : b64EncChar v < 128 := by
  unfold b64EncChar; split_ifs <;> omega

/-- The base32hex decode table inverts the encode table. -/
theorem b32_dec_enc : ∀ v < 32, b32DecChar (b32EncChar v) = some v := by decide

/-- Base32hex alphabet characters are not the padding character. -/
theorem b32EncChar_ne_pad : ∀ v < 32, b32EncChar v ≠ 61 := by decide

/-- Base32hex alphabet characters are digits or lowercase `a`-`v`. -/
theorem b32EncChar_sym : ∀ v < 32,
    (48 ≤ b32EncChar v ∧ b32EncChar v ≤ 57) ∨
    (97 ≤ b32EncChar v ∧ b32EncChar v ≤ 118) := by decide

/-- A successful association-list lookup finds a pair of the list. -/
theorem lookup_pair_mem {tbl : List (Nat × List Nat)} {c : Nat} {v : List Nat}
    (h : tbl.lookup c = some v) : (c, v) ∈ tbl := by
  induction tbl with
  | nil => simp [List.lookup] at h
  | cons p t ih =>
    obtain ⟨k, w⟩ := p
    by_cases hc : c = k
    · subst hc
      simp only [List.lookup, beq_self_eq_true] at h
      obtain rfl : w = v := Option.some_inj.mp h
      exact List.mem_cons_self _ _
    · have hb : (c == k) = false := by simp [hc]
      simp only [List.lookup, hb] at h
      exact List.mem_cons_of_mem _ (ih h)

/-- Lookup misses when the key matches no pair of the list. -/
theorem lookup_eq_none {tbl : List (Nat × List Nat)} {c : Nat}
    (h : ∀ p ∈ tbl, c ≠ p.1) : tbl.lookup c = none := by
  induction tbl with
  | nil => rfl
  | cons p t ih =>
    obtain ⟨k, w⟩ := p
    have hb : (c == k) = false := by
      have := h (k, w) (by simp)
      simp only [beq_eq_false_iff_ne, ne_eq]
      exact this
    simp only [List.lookup, hb]
    exact ih (fun q hq => h q (List.mem_cons_of_mem _ hq))

/-- Scanner step: a data character at quad position 0. -/
theorem a2b_step_data0 {c v : Nat} (hv : b64DecChar c = some v) (hne : c ≠ 61)
    (rest : List Nat) (leftc pads : Nat) (acc : List Nat) :
    a2bBase64Aux (c :: rest) 0 leftc pads acc = a2bBase64Aux rest 1 v 0 acc := by
  simp only [a2bBase64Aux]
  rw [if_neg hne, hv]

/-- Scanner step: a data character at quad position 1 emits one byte. -/
theorem a2b_step_data1 {c v : Nat} (hv : b64DecChar c = some v) (hne : c ≠ 61)
    (rest : List Nat) (leftc pads : Nat) (acc : List Nat) :
    a2bBase64Aux (c :: rest) 1 leftc pads acc =
      a2bBase64Aux rest 2 (v % 16) 0 ((leftc * 4 + v / 16) :: acc) := by
  simp only [a2bBase64Aux]
  rw [if_neg hne, hv]

/-- Scanner step: a data character at quad position 2 emits one byte. -/
theorem a2b_step_data2 {c v : Nat} (hv : b64DecChar c = some v) (hne : c ≠ 61)
    (rest : List Nat) (leftc pads : Nat) (acc : List Nat) :
    a2bBase64Aux (c :: rest) 2 leftc pads acc =
      a2bBase64Aux rest 3 (v % 4) 0 ((leftc * 16 + v / 4) :: acc) := by
  simp only [a2bBase64Aux]
  rw [if_neg hne, hv]

/-- Scanner step: a data character at quad position 3 emits one byte. -/
theorem a2b_step_data3 {c v : Nat} (hv : b64DecChar c = some v) (hne : c ≠ 61)
    (rest : List Nat) (leftc pads : Nat) (acc : List Nat) :
    a2bBase64Aux (c :: rest) 3 leftc pads acc =
      a2bBase64Aux rest 0 0 0 ((leftc * 64 + v) :: acc) := by
  simp only [a2bBase64Aux]
  rw [if_neg hne, hv]

/-- Scanner step: a first padding character at quad position 2 is counted. -/
theorem a2b_pad_cont2 (rest : List Nat) (leftc : Nat) (acc : List Nat) :
    a2bBase64Aux (61 :: rest) 2 leftc 0 acc = a2bBase64Aux rest 2 leftc 1 acc := by
  simp [a2bBase64Aux]

/-- Scanner step: a second padding character at quad position 2 stops with
success. -/
theorem a2b_pad_stop2 (rest : List Nat) (leftc : Nat) (acc : List Nat) :
    a2bBase64Aux (61 :: rest) 2 leftc 1 acc = some acc.reverse := by
  simp [a2bBase64Aux]

/-- Scanner step: a padding character at quad position 3 stops with success. -/
theorem a2b_pad_stop3 (rest : List Nat) (leftc : Nat) (acc : List Nat) :
    a2bBase64Aux (61 :: rest) 3 leftc 0 acc = some acc.reverse := by
  simp [a2bBase64Aux]

/-- The scanner consumes one full encoded quad and recovers its three bytes. -/
theorem a2b_chunk {x y z : Nat} (hx : x < 256) (hy : y < 256) (hz : z < 256)
    (rest acc : List Nat) :
    a2bBase64Aux (b64EncChar (x / 4) :: b64EncChar (x % 4 * 16 + y / 16) ::
      b64EncChar (y % 16 * 4 + z / 64) :: b64EncChar (z % 64) :: rest) 0 0 0 acc
    = a2bBase64Aux rest 0 0 0 (z :: y :: x :: acc) := by
  have h0 : x / 4 < 64 := by omega
  have h1 : x % 4 * 16 + y / 16 < 64 := by omega
  have h2 : y % 16 * 4 + z / 64 < 64 := by omega
  have h3 : z % 64 < 64 := by omega
  rw [a2b_step_data0 (b64_dec_enc _ h0) (b64EncChar_ne_pad _ h0)]
  rw [a2b_step_data1 (b64_dec_enc _ h1) (b64EncChar_ne_pad _ h1)]
  rw [a2b_step_data2 (b64_dec_enc _ h2) (b64EncChar_ne_pad _ h2)]
  rw [a2b_step_data3 (b64_dec_enc _ h3) (b64EncChar_ne_pad _ h3)]
  have ex : x / 4 * 4 + (x % 4 * 16 + y / 16) / 16 = x := by omega
  have ey : (x % 4 * 16 + y / 16) % 16 * 16 + (y % 16 * 4 + z / 64) / 4 = y := by omega
  have ez : (y % 16 * 4 + z / 64) % 4 * 64 + z % 64 = z := by omega
  rw [ex, ey, ez]

/-- The scanner decodes a base64-encoded byte list back to those bytes. -/
theorem a2b_encode : ∀ (b : List Nat), (∀ x ∈ b, x < 256) → ∀ (acc : List Nat),
    a2bBase64Aux (b64encode b) 0 0 0 acc = some (acc.reverse ++ b)
  | [], _, acc => by simp [b64encode, a2bBase64Aux]
  | [x], hb, acc => by
    have hx : x < 256 := hb x (by simp)
    have h0 : x / 4 < 64 := by omega
    have h1 : x % 4 * 16 < 64 := by omega
    show a2bBase64Aux
      (b64EncChar (x / 4) :: b64EncChar (x % 4 * 16) :: 61 :: 61 :: []) 0 0 0 acc = _
    rw [a2b_step_data0 (b64_dec_enc _ h0) (b64EncChar_ne_pad _ h0)]
    rw [a2b_step_data1 (b64_dec_enc _ h1) (b64EncChar_ne_pad _ h1)]
    rw [a2b_pad_cont2, a2b_pad_stop2]
    have ex : x / 4 * 4 + x % 4 * 16 / 16 = x := by omega
    rw [ex]
    simp
  | [x, y], hb, acc => by
    have hx : x < 256 := hb x (by simp)
    have hy : y < 256 := hb y (by simp)
    have h0 : x / 4 < 64 := by omega
    have h1 : x % 4 * 16 + y / 16 < 64 := by omega
    have h2 : y % 16 * 4 < 64 := by omega
    show a2bBase64Aux (b64EncChar (x / 4) :: b64EncChar (x % 4 * 16 + y / 16) ::
      b64EncChar (y % 16 * 4) :: 61 :: []) 0 0 0 acc = _
    rw [a2b_step_data0 (b64_dec_enc _ h0) (b64EncChar_ne_pad _ h0)]
    rw [a2b_step_data1 (b64_dec_enc _ h1) (b64EncChar_ne_pad _ h1)]
    rw [a2b_step_data2 (b64_dec_enc _ h2) (b64EncChar_ne_pad _ h2)]
    rw [a2b_pad_stop3]
    have ex : x / 4 * 4 + (x % 4 * 16 + y / 16) / 16 = x := by omega
    have ey : (x % 4 * 16 + y / 16) % 16 * 16 + y % 16 * 4 / 4 = y := by omega
    rw [ex, ey]
    simp
  | x :: y :: z :: w :: rest, hb, acc => by
    have hx : x < 256 := hb x (by simp)
    have hy : y < 256 := hb y (by simp)
    have hz : z < 256 := hb z (by simp)
    show a2bBase64Aux (b64EncChar (x / 4) :: b64EncChar (x % 4 * 16 + y / 16) ::
      b64EncChar (y % 16 * 4 + z / 64) :: b64EncChar (z % 64) ::
      b64encode (w :: rest)) 0 0 0 acc = _
    rw [a2b_chunk hx hy hz]
    rw [a2b_encode (w :: rest) (fun a ha => hb a (by simp [ha])) (z :: y :: x :: acc)]
    simp
  | [x, y, z], hb, acc => by
    have hx : x < 256 := hb x (by simp)
    have hy : y < 256 := hb y (by simp)
    have hz : z < 256 := hb z (by simp)
    show a2bBase64Aux (b64EncChar (x / 4) :: b64EncChar (x % 4 * 16 + y / 16) ::
      b64EncChar (y % 16 * 4 + z / 64) :: b64EncChar (z % 64) ::
      b64encode []) 0 0 0 acc = _
    rw [a2b_chunk hx hy hz]
    simp [b64encode, a2bBase64Aux]

/-- Base64 round-trip: decoding an encoded byte list recovers it. -/
theorem b64_roundtrip {b : List Nat} (hb : ∀ x ∈ b, x < 256) :
    b64decode (b64encode b) = some b := by
  unfold b64decode
  rw [a2b_encode b hb []]
  simp

/-- Padding characters at the front of a list are all taken by the padding
scan. -/
theorem takeWhile_pad_prepend (k : Nat) (r : List Nat) :
    (List.replicate k 61 ++ r).takeWhile (fun c => c == 61) =
      List.replicate k 61 ++ r.takeWhile (fun c => c == 61) := by
  induction k with
  | zero => simp
  | succ n ih => simp [List.replicate_succ, List.takeWhile_cons, ih]

/-- Stripping `k` trailing padding characters from a padded group recovers
the group body, provided the body does not itself end in padding. -/
theorem b32Body_padded (body : List Nat) (k : Nat)
    (h : body.reverse.takeWhile (fun c => c == 61) = []) :
    b32Body (body ++ List.replicate k 61) = body := by
  unfold b32Body
  rw [List.reverse_append, List.reverse_replicate, takeWhile_pad_prepend, h]
  simp

/-- `b32encode` never returns the empty string on nonempty input. -/
theorem b32encode_ne_nil : ∀ {l : List Nat}, l ≠ [] → b32encode l ≠ [] := by
  intro l h
  match l with
  | [] => exact absurd rfl h
  | [a] => simp [b32encode]
  | [a, b] => simp [b32encode]
  | [a, b, c] => simp [b32encode]
  | [a, b, c, d] => simp [b32encode]
  | a :: b :: c :: d :: e :: rest => simp [b32encode]

/-- Base32hex round-trip at the group level: decoding an encoded byte list
recovers it. -/
theorem b32decodeAux_encode : ∀ (b : List Nat), (∀ x ∈ b, x < 256) →
    b32decodeAux (b32encode b) = some b
  | [], _ => rfl
  | [a], hb => by
    have ha : a < 256 := hb a (by simp)
    have hv0 : b32DecChar (b32EncChar (a / 8)) = some (a / 8) :=
      b32_dec_enc _ (by omega)
    have hv1 : b32DecChar (b32EncChar (a % 8 * 4)) = some (a % 8 * 4) :=
      b32_dec_enc _ (by omega)
    have hp : (b32EncChar (a % 8 * 4) == 61) = false := by
      simp [b32EncChar_ne_pad _ (show a % 8 * 4 < 32 by omega)]
    show b32decodeAux (b32EncChar (a / 8) :: b32EncChar (a % 8 * 4) ::
      61 :: 61 :: 61 :: 61 :: 61 :: 61 :: []) = _
    simp only [b32decodeAux, List.isEmpty_nil, if_true, b32decodeFinal]
    rw [show (b32EncChar (a / 8) :: b32EncChar (a % 8 * 4) ::
        61 :: 61 :: 61 :: 61 :: 61 :: 61 :: []) =
      [b32EncChar (a / 8), b32EncChar (a % 8 * 4)] ++ List.replicate 6 61 from rfl]
    rw [b32Body_padded _ _ (by simp [List.takeWhile_cons, hp])]
    simp only [decodeSyms, hv0, hv1]
    have e0 : a / 8 * 8 + a % 8 * 4 / 4 = a := by omega
    simp <;> omega
  | [a, b], hb => by
    have ha : a < 256 := hb a (by simp)
    have hbb : b < 256 := hb b (by simp)
    have hv0 : b32DecChar (b32EncChar (a / 8)) = some (a / 8) :=
      b32_dec_enc _ (by omega)
    have hv1 : b32DecChar (b32EncChar (a % 8 * 4 + b / 64)) =
        some (a % 8 * 4 + b / 64) := b32_dec_enc _ (by omega)
    have hv2 : b32DecChar (b32EncChar (b / 2 % 32)) = some (b / 2 % 32) :=
      b32_dec_enc _ (by omega)
    have hv3 : b32DecChar (b32EncChar (b % 2 * 16)) = some (b % 2 * 16) :=
      b32_dec_enc _ (by omega)
    have hp : (b32EncChar (b % 2 * 16) == 61) = false := by
      simp [b32EncChar_ne_pad _ (show b % 2 * 16 < 32 by omega)]
    show b32decodeAux (b32EncChar (a / 8) :: b32EncChar (a % 8 * 4 + b / 64) ::
      b32EncChar (b / 2 % 32) :: b32EncChar (b % 2 * 16) ::
      61 :: 61 :: 61 :: 61 :: []) = _
    simp only [b32decodeAux, List.isEmpty_nil, if_true, b32decodeFinal]
    rw [show (b32EncChar (a / 8) :: b32EncChar (a % 8 * 4 + b / 64) ::
        b32EncChar (b / 2 % 32) :: b32EncChar (b % 2 * 16) ::
        61 :: 61 :: 61 :: 61 :: []) =
      [b32EncChar (a / 8), b32EncChar (a % 8 * 4 + b / 64),
       b32EncChar (b / 2 % 32), b32EncChar (b % 2 * 16)] ++
        List.replicate 4 61 from rfl]
    rw [b32Body_padded _ _ (by simp [List.takeWhile_cons, hp])]
    simp only [decodeSyms, hv0, hv1, hv2, hv3]
    have e0 : a / 8 * 8 + (a % 8 * 4 + b / 64) / 4 = a := by omega
    have e1 : (a % 8 * 4 + b / 64) % 4 * 64 + b / 2 % 32 * 2 + b % 2 * 16 / 16 = b := by
      omega
    simp <;> omega
  | [a, b, c], hb => by
    have ha : a < 256 := hb a (by simp)
    have hbb : b < 256 := hb b (by simp)
    have hc : c < 256 := hb c (by simp)
    have hv0 : b32DecChar (b32EncChar (a / 8)) = some (a / 8) :=
      b32_dec_enc _ (by omega)
    have hv1 : b32DecChar (b32EncChar (a % 8 * 4 + b / 64)) =
        some (a % 8 * 4 + b / 64) := b32_dec_enc _ (by omega)
    have hv2 : b32DecChar (b32EncChar (b / 2 % 32)) = some (b / 2 % 32) :=
      b32_dec_enc _ (by omega)
    have hv3 : b32DecChar (b32EncChar (b % 2 * 16 + c / 16)) =
        some (b % 2 * 16 + c / 16) := b32_dec_enc _ (by omega)
    have hv4 : b32DecChar (b32EncChar (c % 16 * 2)) = some (c % 16 * 2) :=
      b32_dec_enc _ (by omega)
    have hp : (b32EncChar (c % 16 * 2) == 61) = false := by
      simp [b32EncChar_ne_pad _ (show c % 16 * 2 < 32 by omega)]
    show b32decodeAux (b32EncChar (a / 8) :: b32EncChar (a % 8 * 4 + b / 64) ::
      b32EncChar (b / 2 % 32) :: b32EncChar (b % 2 * 16 + c / 16) ::
      b32EncChar (c % 16 * 2) :: 61 :: 61 :: 61 :: []) = _
    simp only [b32decodeAux, List.isEmpty_nil, if_true, b32decodeFinal]
    rw [show (b32EncChar (a / 8) :: b32EncChar (a % 8 * 4 + b / 64) ::
        b32EncChar (b / 2 % 32) :: b32EncChar (b % 2 * 16 + c / 16) ::
        b32EncChar (c % 16 * 2) :: 61 :: 61 :: 61 :: []) =
      [b32EncChar (a / 8), b32EncChar (a % 8 * 4 + b / 64),
       b32EncChar (b / 2 % 32), b32EncChar (b % 2 * 16 + c / 16),
       b32EncChar (c % 16 * 2)] ++ List.replicate 3 61 from rfl]
    rw [b32Body_padded _ _ (by simp [List.takeWhile_cons, hp])]
    simp only [decodeSyms, hv0, hv1, hv2, hv3, hv4]
    have e0 : a / 8 * 8 + (a % 8 * 4 + b / 64) / 4 = a := by omega
    have e1 : (a % 8 * 4 + b / 64) % 4 * 64 + b / 2 % 32 * 2 +
        (b % 2 * 16 + c / 16) / 16 = b := by omega
    have e2 : (b % 2 * 16 + c / 16) % 16 * 16 + c % 16 * 2 / 2 = c := by omega
    simp <;> omega
  | [a, b, c, d], hb => by
    have ha : a < 256 := hb a (by simp)
    have hbb : b < 256 := hb b (by simp)
    have hc : c < 256 := hb c (by simp)
    have hd : d < 256 := hb d (by simp)
    have hv0 : b32DecChar (b32EncChar (a / 8)) = some (a / 8) :=
      b32_dec_enc _ (by omega)
    have hv1 : b32DecChar (b32EncChar (a % 8 * 4 + b / 64)) =
        some (a % 8 * 4 + b / 64) := b32_dec_enc _ (by omega)
    have hv2 : b32DecChar (b32EncChar (b / 2 % 32)) = some (b / 2 % 32) :=
      b32_dec_enc _ (by omega)
    have hv3 : b32DecChar (b32EncChar (b % 2 * 16 + c / 16)) =
        some (b % 2 * 16 + c / 16) := b32_dec_enc _ (by omega)
    have hv4 : b32DecChar (b32EncChar (c % 16 * 2 + d / 128)) =
        some (c % 16 * 2 + d / 128) := b32_dec_enc _ (by omega)
    have hv5 : b32DecChar (b32EncChar (d / 4 % 32)) = some (d / 4 % 32) :=
      b32_dec_enc _ (by omega)
    have hv6 : b32DecChar (b32EncChar (d % 4 * 8)) = some (d % 4 * 8) :=
      b32_dec_enc _ (by omega)
    have hp : (b32EncChar (d % 4 * 8) == 61) = false := by
      simp [b32EncChar_ne_pad _ (show d % 4 * 8 < 32 by omega)]
    show b32decodeAux (b32EncChar (a / 8) :: b32EncChar (a % 8 * 4 + b / 64) ::
      b32EncChar (b / 2 % 32) :: b32EncChar (b % 2 * 16 + c / 16) ::
      b32EncChar (c % 16 * 2 + d / 128) :: b32EncChar (d / 4 % 32) ::
      b32EncChar (d % 4 * 8) :: 61 :: []) = _
    simp only [b32decodeAux, List.isEmpty_nil, if_true, b32decodeFinal]
    rw [show (b32EncChar (a / 8) :: b32EncChar (a % 8 * 4 + b / 64) ::
        b32EncChar (b / 2 % 32) :: b32EncChar (b % 2 * 16 + c / 16) ::
        b32EncChar (c % 16 * 2 + d / 128) :: b32EncChar (d / 4 % 32) ::
        b32EncChar (d % 4 * 8) :: 61 :: []) =
      [b32EncChar (a / 8), b32EncChar (a % 8 * 4 + b / 64),
       b32EncChar (b / 2 % 32), b32EncChar (b % 2 * 16 + c / 16),
       b32EncChar (c % 16 * 2 + d / 128), b32EncChar (d / 4 % 32),
       b32EncChar (d % 4 * 8)] ++ List.replicate 1 61 from rfl]
    rw [b32Body_padded _ _ (by simp [List.takeWhile_cons, hp])]
    simp only [decodeSyms, hv0, hv1, hv2, hv3, hv4, hv5, hv6]
    have e0 : a / 8 * 8 + (a % 8 * 4 + b / 64) / 4 = a := by omega
    have e1 : (a % 8 * 4 + b / 64) % 4 * 64 + b / 2 % 32 * 2 +
        (b % 2 * 16 + c / 16) / 16 = b := by omega
    have e2 : (b % 2 * 16 + c / 16) % 16 * 16 + (c % 16 * 2 + d / 128) / 2 = c := by
      omega
    have e3 : (c % 16 * 2 + d / 128) % 2 * 128 + d / 4 % 32 * 4 + d % 4 * 8 / 8 = d := by
      omega
    simp <;> omega
  | a :: b :: c :: d :: e :: rest, hb => by
    have ha : a < 256 := hb a (by simp)
    have hbb : b < 256 := hb b (by simp)
    have hc : c < 256 := hb c (by simp)
    have hd : d < 256 := hb d (by simp)
    have he : e < 256 := hb e (by simp)
    have hv0 : b32DecChar (b32EncChar (a / 8)) = some (a / 8) :=
      b32_dec_enc _ (by omega)
    have hv1 : b32DecChar (b32EncChar (a % 8 * 4 + b / 64)) =
        some (a % 8 * 4 + b / 64) := b32_dec_enc _ (by omega)
    have hv2 : b32DecChar (b32EncChar (b / 2 % 32)) = some (b / 2 % 32) :=
      b32_dec_enc _ (by omega)
    have hv3 : b32DecChar (b32EncChar (b % 2 * 16 + c / 16)) =
        some (b % 2 * 16 + c / 16) := b32_dec_enc _ (by omega)
    have hv4 : b32DecChar (b32EncChar (c % 16 * 2 + d / 128)) =
        some (c % 16 * 2 + d / 128) := b32_dec_enc _ (by omega)
    have hv5 : b32DecChar (b32EncChar (d / 4 % 32)) = some (d / 4 % 32) :=
      b32_dec_enc _ (by omega)
    have hv6 : b32DecChar (b32EncChar (d % 4 * 8 + e / 32)) =
        some (d % 4 * 8 + e / 32) := b32_dec_enc _ (by omega)
    have hv7 : b32DecChar (b32EncChar (e % 32)) = some (e % 32) :=
      b32_dec_enc _ (by omega)
    have hp : (b32EncChar (e % 32) == 61) = false := by
      simp [b32EncChar_ne_pad _ (show e % 32 < 32 by omega)]
    have e0 : a / 8 * 8 + (a % 8 * 4 + b / 64) / 4 = a := by omega
    have e1 : (a % 8 * 4 + b / 64) % 4 * 64 + b / 2 % 32 * 2 +
        (b % 2 * 16 + c / 16) / 16 = b := by omega
    have e2 : (b % 2 * 16 + c / 16) % 16 * 16 + (c % 16 * 2 + d / 128) / 2 = c := by
      omega
    have e3 : (c % 16 * 2 + d / 128) % 2 * 128 + d / 4 % 32 * 4 +
        (d % 4 * 8 + e / 32) / 8 = d := by omega
    have e4 : (d % 4 * 8 + e / 32) % 8 * 32 + e % 32 = e := by omega
    show b32decodeAux (b32EncChar (a / 8) :: b32EncChar (a % 8 * 4 + b / 64) ::
      b32EncChar (b / 2 % 32) :: b32EncChar (b % 2 * 16 + c / 16) ::
      b32EncChar (c % 16 * 2 + d / 128) :: b32EncChar (d / 4 % 32) ::
      b32EncChar (d % 4 * 8 + e / 32) :: b32EncChar (e % 32) ::
      b32encode rest) = _
    by_cases hrest : rest = []
    · subst hrest
      simp only [b32encode, b32decodeAux, List.isEmpty_nil, if_true, b32decodeFinal]
      rw [show (b32EncChar (a / 8) :: b32EncChar (a % 8 * 4 + b / 64) ::
          b32EncChar (b / 2 % 32) :: b32EncChar (b % 2 * 16 + c / 16) ::
          b32EncChar (c % 16 * 2 + d / 128) :: b32EncChar (d / 4 % 32) ::
          b32EncChar (d % 4 * 8 + e / 32) :: b32EncChar (e % 32) :: []) =
        [b32EncChar (a / 8), b32EncChar (a % 8 * 4 + b / 64),
         b32EncChar (b / 2 % 32), b32EncChar (b % 2 * 16 + c / 16),
         b32EncChar (c % 16 * 2 + d / 128), b32EncChar (d / 4 % 32),
         b32EncChar (d % 4 * 8 + e / 32), b32EncChar (e % 32)] ++
          List.replicate 0 61 from rfl]
      rw [b32Body_padded _ _ (by simp [List.takeWhile_cons, hp])]
      simp only [decodeSyms, hv0, hv1, hv2, hv3, hv4, hv5, hv6, hv7]
      simp <;> omega
    · have hne : (b32encode rest).isEmpty = false := by
        rcases hhh : b32encode rest with _ | ⟨u, v⟩
        · exact absurd hhh (b32encode_ne_nil hrest)
        · rfl
      have hrec := b32decodeAux_encode rest (fun a2 ha2 => hb a2 (by simp [ha2]))
      simp only [b32decodeAux, hne, Bool.false_eq_true, if_false, b32FullGroup]
      simp only [decodeSyms, hv0, hv1, hv2, hv3, hv4, hv5, hv6, hv7]
      rw [hrec]
      simp <;> omega

/-- Base32hex round-trip: decoding an encoded byte list recovers it. -/
theorem b32_roundtrip {b : List Nat} (hb : ∀ x ∈ b, x < 256) :
    b32decode (b32encode b) = some b := b32decodeAux_encode b hb

/-- Unwrap inverts wrap. -/
theorem struct_unwrap_wrap (b : List Nat) : struct_unwrap (struct_wrap b) = .ok b := by
  have hp : etaHeader.isPrefixOf (struct_wrap b) = true := by
    rw [List.isPrefixOf_iff_prefix]
    unfold struct_wrap
    rw [List.append_assoc]
    exact List.prefix_append _ _
  have hs : etaFooter.isSuffixOf (struct_wrap b) = true := by
    rw [List.isSuffixOf_iff_suffix]
    unfold struct_wrap
    exact List.suffix_append _ _
  have hdrop : (struct_wrap b).drop 12 = b ++ etaFooter := by
    unfold struct_wrap
    rw [List.append_assoc]
    exact List.drop_left' (by rfl)
  have hlen : (struct_wrap b).length - 24 = b.length := by
    unfold struct_wrap
    simp [etaHeader, etaFooter]
  unfold struct_unwrap
  rw [if_pos (by simp [hp, hs])]
  rw [hdrop, hlen, List.take_left]

/-- Unwrap fails with the frame error when either marker is missing. -/
theorem struct_unwrap_err {d : List Nat}
    (h : etaHeader.isPrefixOf d = false ∨ etaFooter.isSuffixOf d = false) :
    struct_unwrap d = .error .frameFormat := by
  unfold struct_unwrap
  rcases h with h | h <;> simp [h]

/-- When both markers are present the buffer splits as header, interior,
footer, and unwrap returns exactly the interior. -/
theorem struct_unwrap_markers {d : List Nat}
    (hp : etaHeader.isPrefixOf d = true) (hs : etaFooter.isSuffixOf d = true) :
    ∃ p, d = etaHeader ++ p ++ etaFooter ∧ struct_unwrap d = .ok p := by
  have hpb := hp
  have hsb := hs
  rw [List.isPrefixOf_iff_prefix] at hp
  rw [List.isSuffixOf_iff_suffix] at hs
  obtain ⟨t, ht⟩ := hp
  obtain ⟨q, hq⟩ := hs
  have h1 : d.length = 12 + t.length := by rw [← ht]; simp [etaHeader]; try omega
  have h2 : d.length = q.length + 12 := by rw [← hq]; simp [etaFooter]; try omega
  by_cases hk : 12 ≤ q.length
  · have hq12 : q.take 12 = etaHeader := by
      have hta : d.take 12 = etaHeader := by
        rw [← ht]; exact List.take_left' (by rfl)
      have htb : d.take 12 = q.take 12 := by
        rw [← hq, List.take_append_eq_append_take]
        have : 12 - q.length = 0 := by omega
        rw [this]
        simp
      rw [← htb, hta]
    have ht2 : t = q.drop 12 ++ etaFooter := by
      have hcmp : etaHeader ++ t = etaHeader ++ (q.drop 12 ++ etaFooter) := by
        calc etaHeader ++ t = d := ht
          _ = q ++ etaFooter := hq.symm
          _ = (q.take 12 ++ q.drop 12) ++ etaFooter := by rw [List.take_append_drop]
          _ = etaHeader ++ (q.drop 12 ++ etaFooter) := by
              rw [hq12, List.append_assoc]
      exact List.append_cancel_left hcmp
    refine ⟨q.drop 12, ?_, ?_⟩
    · rw [← ht, ht2, List.append_assoc]
    · unfold struct_unwrap
      rw [if_pos (by simp [hpb, hsb])]
      have hd12 : d.drop 12 = t := by
        rw [← ht]; exact List.drop_left' (by rfl)
      have hl : d.length - 24 = (q.drop 12).length := by
        simp [List.length_drop]
        omega
      rw [hd12, ht2, hl, List.take_left]
  · exfalso
    have hd11 : d.getD 11 0 = 93 := by
      rw [← ht, List.getD_append _ _ _ _ (by simp [etaHeader])]
      decide
    have hd11b : d.getD 11 0 = etaFooter.getD (11 - q.length) 0 := by
      rw [← hq]
      exact List.getD_append_right _ _ _ _ (by omega)
    have hfoot : ∀ j < 12, etaFooter.getD j 0 = 93 → j = 11 := by decide
    have hj := hfoot (11 - q.length) (by omega) (by rw [← hd11b]; exact hd11)
    have hq0 : q = [] := List.eq_nil_of_length_eq_zero (by omega)
    have ht0 : t = [] := List.eq_nil_of_length_eq_zero (by omega)
    subst hq0
    subst ht0
    rw [List.append_nil] at ht
    rw [List.nil_append] at hq
    have : etaHeader = etaFooter := by rw [ht, hq]
    exact absurd this (by decide)

/-- The table-A dict realizes the affine rule of the spec on every
character. -/
theorem aTable_char (c : Nat) :
    (aTable.lookup c).getD [c] =
      if 97 ≤ c ∧ c ≤ 112 then decimalRender ((c - 97) % 5 + 1) else [c] := by
  by_cases h : 97 ≤ c ∧ c ≤ 112
  · rw [if_pos h]
    obtain ⟨h1, h2⟩ := h
    interval_cases c <;> decide
  · rw [if_neg h]
    have hk : ∀ p ∈ aTable, c ≠ p.1 := by
      have hmem : ∀ p ∈ aTable, 97 ≤ p.1 ∧ p.1 ≤ 112 := by decide
      intro p hp
      have := hmem p hp
      omega
    rw [lookup_eq_none hk]
    rfl

/-- The table-B dict realizes the affine rule of the spec on every
character. -/
theorem fTable_char (c : Nat) :
    (fTable.lookup c).getD [c] =
      if 102 ≤ c ∧ c ≤ 120 then decimalRender ((c - 102) % 4 + 9) else [c] := by
  by_cases h : 102 ≤ c ∧ c ≤ 120
  · rw [if_pos h]
    obtain ⟨h1, h2⟩ := h
    interval_cases c <;> decide
  · rw [if_neg h]
    have hk : ∀ p ∈ fTable, c ≠ p.1 := by
      have hmem : ∀ p ∈ fTable, 102 ≤ p.1 ∧ p.1 ≤ 120 := by decide
      intro p hp
      have := hmem p hp
      omega
    rw [lookup_eq_none hk]
    rfl

/-- All substitution values of table A are ASCII. -/
theorem aTable_val_lt : ∀ p ∈ aTable, ∀ d ∈ p.2, d < 128 := by decide

/-- All substitution values of table B are ASCII. -/
theorem fTable_val_lt : ∀ p ∈ fTable, ∀ d ∈ p.2, d < 128 := by decide

/-- A character of a substituted text comes from the dict entry of some
character of the input. -/
theorem subst_mem_cases {tbl : List (Nat × List Nat)} {t : List Nat} {c : Nat}
    (hc : c ∈ (t.map (fun ch => (tbl.lookup ch).getD [ch])).flatten) :
    ∃ ch ∈ t, c ∈ (tbl.lookup ch).getD [ch] := by
  simp only [List.mem_flatten, List.mem_map] at hc
  obtain ⟨l, ⟨ch, hch, hfl⟩, hcl⟩ := hc
  exact ⟨ch, hch, hfl ▸ hcl⟩

/-- Substitution pass A preserves ASCII texts. -/
theorem regex_a_p_lt {t : List Nat} (h : ∀ c ∈ t, c < 128) :
    ∀ c ∈ regex_a_p_transform t, c < 128 := by
  intro c hc
  obtain ⟨ch, hch, hcl⟩ := subst_mem_cases hc
  cases hl : aTable.lookup ch with
  | none =>
    rw [hl] at hcl
    simp at hcl
    have := h ch hch
    omega
  | some v =>
    rw [hl] at hcl
    simp at hcl
    exact aTable_val_lt _ (lookup_pair_mem hl) c hcl

/-- Substitution pass B preserves ASCII texts. -/
theorem regex_f_x_lt {t : List Nat} (h : ∀ c ∈ t, c < 128) :
    ∀ c ∈ regex_f_x_transform t, c < 128 := by
  intro c hc
  obtain ⟨ch, hch, hcl⟩ := subst_mem_cases hc
  cases hl : fTable.lookup ch with
  | none =>
    rw [hl] at hcl
    simp at hcl
    have := h ch hch
    omega
  | some v =>
    rw [hl] at hcl
    simp at hcl
    exact fTable_val_lt _ (lookup_pair_mem hl) c hcl

/-- Every character of a base64 encoding is ASCII. -/
theorem b64encode_lt : ∀ (l : List Nat), ∀ c ∈ b64encode l, c < 128
  | [] => by simp [b64encode]
  | [x] => by
    intro c hc
    simp only [b64encode, List.mem_cons, List.not_mem_nil, or_false] at hc
    rcases hc with rfl | rfl | rfl | rfl
    · exact b64EncChar_lt _
    · exact b64EncChar_lt _
    · omega
    · omega
  | [x, y] => by
    intro c hc
    simp only [b64encode, List.mem_cons, List.not_mem_nil, or_false] at hc
    rcases hc with rfl | rfl | rfl | rfl
    · exact b64EncChar_lt _
    · exact b64EncChar_lt _
    · exact b64EncChar_lt _
    · omega
  | x :: y :: z :: rest => by
    intro c hc
    simp only [b64encode, List.mem_cons] at hc
    rcases hc with rfl | rfl | rfl | rfl | hc
    · exact b64EncChar_lt _
    · exact b64EncChar_lt _
    · exact b64EncChar_lt _
    · exact b64EncChar_lt _
    · exact b64encode_lt rest c hc

/-- Every character of a base32hex encoding of bytes is an alphabet symbol
or the padding character. -/
theorem b32encode_sym : ∀ (l : List Nat), (∀ x ∈ l, x < 256) →
    ∀ c ∈ b32encode l, (48 ≤ c ∧ c ≤ 57) ∨ (97 ≤ c ∧ c ≤ 118) ∨ c = 61
  | [], _ => by simp [b32encode]
  | [a], hb => by
    intro c hc
    have ha : a < 256 := hb a (by simp)
    simp only [b32encode, List.mem_cons, List.not_mem_nil, or_false] at hc
    rcases hc with rfl | rfl | rfl | rfl | rfl | rfl | rfl | rfl
    · rcases b32EncChar_sym _ (show a / 8 < 32 by omega) with h | h
      · exact Or.inl h
      · exact Or.inr (Or.inl h)
    · rcases b32EncChar_sym _ (show a % 8 * 4 < 32 by omega) with h | h
      · exact Or.inl h
      · exact Or.inr (Or.inl h)
    all_goals exact Or.inr (Or.inr rfl)
  | [a, b], hb => by
    intro c hc
    have ha : a < 256 := hb a (by simp)
    have hbb : b < 256 := hb b (by simp)
    simp only [b32encode, List.mem_cons, List.not_mem_nil, or_false] at hc
    rcases hc with rfl | rfl | rfl | rfl | rfl | rfl | rfl | rfl
    · rcases b32EncChar_sym _ (show a / 8 < 32 by omega) with h | h
      · exact Or.inl h
      · exact Or.inr (Or.inl h)
    · rcases b32EncChar_sym _ (show a % 8 * 4 + b / 64 < 32 by omega) with h | h
      · exact Or.inl h
      · exact Or.inr (Or.inl h)
    · rcases b32EncChar_sym _ (show b / 2 % 32 < 32 by omega) with h | h
      · exact Or.inl h
      · exact Or.inr (Or.inl h)
    · rcases b32EncChar_sym _ (show b % 2 * 16 < 32 by omega) with h | h
      · exact Or.inl h
      · exact Or.inr (Or.inl h)
    all_goals exact Or.inr (Or.inr rfl)
  | [a, b, c2], hb => by
    intro c hc
    have ha : a < 256 := hb a (by simp)
    have hbb : b < 256 := hb b (by simp)
    have hc2 : c2 < 256 := hb c2 (by simp)
    simp only [b32encode, List.mem_cons, List.not_mem_nil, or_false] at hc
    rcases hc with rfl | rfl | rfl | rfl | rfl | rfl | rfl | rfl
    · rcases b32EncChar_sym _ (show a / 8 < 32 by omega) with h | h
      · exact Or.inl h
      · exact Or.inr (Or.inl h)
    · rcases b32EncChar_sym _ (show a % 8 * 4 + b / 64 < 32 by omega) with h | h
      · exact Or.inl h
      · exact Or.inr (Or.inl h)
    · rcases b32EncChar_sym _ (show b / 2 % 32 < 32 by omega) with h | h
      · exact Or.inl h
      · exact Or.inr (Or.inl h)
    · rcases b32EncChar_sym _ (show b % 2 * 16 + c2 / 16 < 32 by omega) with h | h
      · exact Or.inl h
      · exact Or.inr (Or.inl h)
    · rcases b32EncChar_sym _ (show c2 % 16 * 2 < 32 by omega) with h | h
      · exact Or.inl h
      · exact Or.inr (Or.inl h)
    all_goals exact Or.inr (Or.inr rfl)
  | [a, b, c2, d], hb => by
    intro c hc
    have ha : a < 256 := hb a (by simp)
    have hbb : b < 256 := hb b (by simp)
    have hc2 : c2 < 256 := hb c2 (by simp)
    have hd : d < 256 := hb d (by simp)
    simp only [b32encode, List.mem_cons, List.not_mem_nil, or_false] at hc
    rcases hc with rfl | rfl | rfl | rfl | rfl | rfl | rfl | rfl
    · rcases b32EncChar_sym _ (show a / 8 < 32 by omega) with h | h
      · exact Or.inl h
      · exact Or.inr (Or.inl h)
    · rcases b32EncChar_sym _ (show a % 8 * 4 + b / 64 < 32 by omega) with h | h
      · exact Or.inl h
      · exact Or.inr (Or.inl h)
    · rcases b32EncChar_sym _ (show b / 2 % 32 < 32 by omega) with h | h
      · exact Or.inl h
      · exact Or.inr (Or.inl h)
    · rcases b32EncChar_sym _ (show b % 2 * 16 + c2 / 16 < 32 by omega) with h | h
      · exact Or.inl h
      · exact Or.inr (Or.inl h)
    · rcases b32EncChar_sym _ (show c2 % 16 * 2 + d / 128 < 32 by omega) with h | h
      · exact Or.inl h
      · exact Or.inr (Or.inl h)
    · rcases b32EncChar_sym _ (show d / 4 % 32 < 32 by omega) with h | h
      · exact Or.inl h
      · exact Or.inr (Or.inl h)
    · rcases b32EncChar_sym _ (show d % 4 * 8 < 32 by omega) with h | h
      · exact Or.inl h
      · exact Or.inr (Or.inl h)
    all_goals exact Or.inr (Or.inr rfl)
  | a :: b :: c2 :: d :: e :: rest, hb => by
    intro c hc
    have ha : a < 256 := hb a (by simp)
    have hbb : b < 256 := hb b (by simp)
    have hc2 : c2 < 256 := hb c2 (by simp)
    have hd : d < 256 := hb d (by simp)
    have he : e < 256 := hb e (by simp)
    simp only [b32encode, List.mem_cons] at hc
    rcases hc with rfl | rfl | rfl | rfl | rfl | rfl | rfl | rfl | hc
    · rcases b32EncChar_sym _ (show a / 8 < 32 by omega) with h | h
      · exact Or.inl h
      · exact Or.inr (Or.inl h)
    · rcases b32EncChar_sym _ (show a % 8 * 4 + b / 64 < 32 by omega) with h | h
      · exact Or.inl h
      · exact Or.inr (Or.inl h)
    · rcases b32EncChar_sym _ (show b / 2 % 32 < 32 by omega) with h | h
      · exact Or.inl h
      · exact Or.inr (Or.inl h)
    · rcases b32EncChar_sym _ (show b % 2 * 16 + c2 / 16 < 32 by omega) with h | h
      · exact Or.inl h
      · exact Or.inr (Or.inl h)
    · rcases b32EncChar_sym _ (show c2 % 16 * 2 + d / 128 < 32 by omega) with h | h
      · exact Or.inl h
      · exact Or.inr (Or.inl h)
    · rcases b32EncChar_sym _ (show d / 4 % 32 < 32 by omega) with h | h
      · exact Or.inl h
      · exact Or.inr (Or.inl h)
    · rcases b32EncChar_sym _ (show d % 4 * 8 + e / 32 < 32 by omega) with h | h
      · exact Or.inl h
      · exact Or.inr (Or.inl h)
    · rcases b32EncChar_sym _ (show e % 32 < 32 by omega) with h | h
      · exact Or.inl h
      · exact Or.inr (Or.inl h)
    · exact b32encode_sym rest (fun u hu => hb u (by simp [hu])) c hc

/-- Every character of a base32hex encoding of bytes is ASCII. -/
theorem b32encode_lt {l : List Nat} (h : ∀ x ∈ l, x < 256) :
    ∀ c ∈ b32encode l, c < 128 := by
  intro c hc
  rcases b32encode_sym l h c hc with h1 | h1 | h1 <;> omega

/-- Frame wrapping maps bytes to bytes. -/
theorem wrap_bytes {l : List Nat} (h : ∀ b ∈ l, b < 256) :
    ∀ b ∈ struct_wrap l, b < 256 := by
  intro b hb
  simp only [struct_wrap, List.mem_append] at hb
  have hh : ∀ b ∈ etaHeader, b < 256 := by decide
  have hf : ∀ b ∈ etaFooter, b < 256 := by decide
  rcases hb with (hb | hb) | hb
  · exact hh b hb
  · exact h b hb
  · exact hf b hb

/-- A successful `encode_datetime` call canonicalizes, substitutes and
produces exactly the base32hex encoding of the wrapped XOR-masked
substituted text. -/
theorem encode_shape {x : EtaInput} {tok : List Nat}
    (h : encode_datetime x = .ok tok) :
    ∃ bs, utf8Encode (canonText x) = some bs ∧
      substText x = regex_f_x_transform (regex_a_p_transform (b64encode bs)) ∧
      tok = b32encode (struct_wrap (xor_binary (substText x))) := by
  unfold encode_datetime at h
  dsimp only at h
  cases hbs : utf8Encode (canonText x) with
  | none => rw [hbs] at h; exact absurd h (by simp)
  | some bs =>
    have hstep1 : utf8Decode (b64encode bs) = some (b64encode bs) :=
      utf8Decode_ascii (b64encode_lt bs)
    have hs3lt : ∀ c ∈ regex_f_x_transform (regex_a_p_transform (b64encode bs)),
        c < 128 := regex_f_x_lt (regex_a_p_lt (b64encode_lt bs))
    have henc3 : utf8Encode (regex_f_x_transform (regex_a_p_transform (b64encode bs))) =
        some (regex_f_x_transform (regex_a_p_transform (b64encode bs))) :=
      utf8Encode_ascii hs3lt
    have hbytes : ∀ b ∈ struct_wrap (xor_binary
        (regex_f_x_transform (regex_a_p_transform (b64encode bs)))), b < 256 :=
      wrap_bytes (xor_binary_lt (fun b hb => by have := hs3lt b hb; omega))
    have hdec32 : utf8Decode (b32encode (struct_wrap (xor_binary
        (regex_f_x_transform (regex_a_p_transform (b64encode bs)))))) =
        some (b32encode (struct_wrap (xor_binary
          (regex_f_x_transform (regex_a_p_transform (b64encode bs)))))) :=
      utf8Decode_ascii (fun c hc => b32encode_lt hbytes c hc)
    rw [hbs] at h
    simp only [hstep1, henc3, hdec32] at h
    have hsub : substText x =
        regex_f_x_transform (regex_a_p_transform (b64encode bs)) := by
      unfold substText
      rw [hbs]
      simp only [Option.getD_some]
      rw [hstep1]
      simp
    refine ⟨bs, rfl, hsub, ?_⟩
    rw [hsub]
    exact (Except.ok.inj h).symm

/-- The guarded final stage of `decode_eta` computes `reinterpretOrFallback`. -/
theorem fallback_eq (t : List Nat) :
    (match utf8Encode t with
     | none => t
     | some sbs =>
       match b64decode sbs with
       | none => t
       | some dec =>
         match utf8Decode dec with
         | none => t
         | some res => res) = reinterpretOrFallback t := by
  unfold reinterpretOrFallback b64Reinterpret
  cases h1 : utf8Encode t with
  | none => simp
  | some sbs =>
    cases h2 : b64decode sbs with
    | none => simp [h2]
    | some dec =>
      cases h3 : utf8Decode dec with
      | none => simp [h2, h3]
      | some res => simp [h2, h3]

/-- When the first three decode stages succeed, `decode_eta` returns the
guarded final-stage result on the intermediate text. -/
theorem decode_eta_of_pre {t pre : List Nat} (h : decodePre t = some pre) :
    decode_eta t = .ok (reinterpretOrFallback pre) := by
  unfold decodePre at h
  unfold decode_eta
  cases h1 : utf8Encode t with
  | none => rw [h1] at h; exact absurd h (by simp)
  | some bs =>
    simp only [h1] at h ⊢
    cases h2 : b32decode bs with
    | none => simp [h2] at h
    | some s1 =>
      simp only [h2] at h ⊢
      cases h3 : struct_unwrap s1 with
      | error e => simp [h3] at h
      | ok s2 =>
        simp only [h3] at h ⊢
        cases h4 : utf8Decode (xor_binary s2) with
        | none => simp [h4] at h
        | some step4 =>
          simp only [h4] at h ⊢
          obtain rfl : step4 = pre := Option.some_inj.mp h
          rw [fallback_eq]

/-- `struct_unwrap` errors only with the frame error kind. -/
theorem struct_unwrap_error_kind {d : List Nat} {e : PyErr}
    (h : struct_unwrap d = .error e) : e = .frameFormat := by
  unfold struct_unwrap at h
  by_cases hc : (etaHeader.isPrefixOf d && etaFooter.isSuffixOf d) = true
  · rw [if_pos hc] at h
    exact absurd h (by simp)
  · rw [if_neg hc] at h
    have := Except.error.inj h
    exact this.symm

/-- Outcome characterization of `decode_eta` on any token whose UTF-8
encoding succeeds: one of the three propagated error kinds, or the guarded
final-stage result on the intermediate text. -/
theorem decode_cases (t : List Nat) (henc : ∃ bs, utf8Encode t = some bs) :
    decode_eta t = .error .malformedEncoding ∨
    decode_eta t = .error .frameFormat ∨
    decode_eta t = .error .unicodeDecode ∨
    ∃ pre, decodePre t = some pre ∧
      decode_eta t = .ok (reinterpretOrFallback pre) := by
  obtain ⟨bs, hbs⟩ := henc
  unfold decode_eta
  simp only [hbs]
  cases h2 : b32decode bs with
  | none => simp [h2]
  | some s1 =>
    simp only [h2]
    cases h3 : struct_unwrap s1 with
    | error e =>
      have he := struct_unwrap_error_kind h3
      subst he
      simp [h3]
    | ok s2 =>
      simp only [h3]
      cases h4 : utf8Decode (xor_binary s2) with
      | none => simp [h4]
      | some step4 =>
        simp only [h4]
        refine Or.inr (Or.inr (Or.inr ⟨step4, ?_, ?_⟩))
        · unfold decodePre
          simp only [hbs, h2, h3, h4]
        · rw [fallback_eq]

/-- Forward evaluation of a successful encode: the token is the base32hex
encoding of the wrapped XOR-masked substituted base64 text. -/
theorem encode_eval {x : EtaInput} {bs : List Nat}
    (hbs : utf8Encode (canonText x) = some bs) :
    encode_datetime x = .ok (b32encode (struct_wrap (xor_binary
      (regex_f_x_transform (regex_a_p_transform (b64encode bs)))))) := by
  have h1 := utf8Decode_ascii (b64encode_lt bs)
  have h2 := utf8Encode_ascii (regex_f_x_lt (regex_a_p_lt (b64encode_lt bs)))
  have hbytes := wrap_bytes (xor_binary_lt
    (fun b hb => by have := regex_f_x_lt (regex_a_p_lt (b64encode_lt bs)) b hb; omega))
  have h3 := utf8Decode_ascii (fun c hc => b32encode_lt hbytes c hc)
  unfold encode_datetime
  simp only [hbs, h1, h2, h3]

/-- The substituted intermediate text of an accepted input is ASCII. -/
theorem substText_lt {x : EtaInput} {tok : List Nat}
    (h : encode_datetime x = .ok tok) : ∀ c ∈ substText x, c < 128 := by
  obtain ⟨bs, _, hsub, _⟩ := encode_shape h
  rw [hsub]
  exact regex_f_x_lt (regex_a_p_lt (b64encode_lt bs))

/-- The wrapped XOR-masked substituted text of an accepted input is a byte
list. -/
theorem substText_wrap_bytes {x : EtaInput} {tok : List Nat}
    (h : encode_datetime x = .ok tok) :
    ∀ b ∈ struct_wrap (xor_binary (substText x)), b < 256 :=
  wrap_bytes (xor_binary_lt (fun b hb => by have := substText_lt h b hb; omega))

/-- Every character of a token produced by encode is a base32hex symbol or
padding. -/
theorem encode_tok_sym {x : EtaInput} {tok : List Nat}
    (h : encode_datetime x = .ok tok) :
    ∀ c ∈ tok, (48 ≤ c ∧ c ≤ 57) ∨ (97 ≤ c ∧ c ≤ 118) ∨ c = 61 := by
  obtain ⟨bs, hbs, hsub, htok⟩ := encode_shape h
  rw [htok]
  exact b32encode_sym _ (substText_wrap_bytes h)

/-- The first three decode stages invert the last three encode stages: the
intermediate text of decoding an encoded token is the substituted text. -/
theorem decodePre_encode {x : EtaInput} {tok : List Nat}
    (h : encode_datetime x = .ok tok) : decodePre tok = some (substText x) := by
  obtain ⟨bs, hbs, hsub, htok⟩ := encode_shape h
  have hs3lt := substText_lt h
  have hbytes := substText_wrap_bytes h
  have htokascii : ∀ c ∈ tok, c < 128 := by
    intro c hc
    rcases encode_tok_sym h c hc with h1 | h1 | h1 <;> omega
  unfold decodePre
  rw [utf8Encode_ascii htokascii]
  dsimp only
  rw [htok, b32_roundtrip hbytes]
  dsimp only
  rw [struct_unwrap_wrap]
  dsimp only
  rw [xor_binary_involutive]
  exact utf8Decode_ascii hs3lt

/-- `dropWhile` stops at a non-space character. -/
theorem dropWhile_cons_nospace {c : Nat} {r : List Nat} (h : pyIsSpace c = false) :
    (c :: r).dropWhile pyIsSpace = c :: r := by
  simp [List.dropWhile_cons, h]

/-- Stripping the written container content removes exactly the final
newline. -/
theorem pyStrip_content (tok : List Nat) :
    pyStrip (beginSentinel ++ [10] ++ tok ++ [10] ++ endSentinel ++ [10]) =
      beginSentinel ++ [10] ++ tok ++ [10] ++ endSentinel := by
  have key : ∀ (V : List Nat),
      (((V ++ [65]) ++ [10]).reverse.dropWhile pyIsSpace).reverse = V ++ [65] := by
    intro V
    rw [List.reverse_append, List.reverse_append]
    simp only [List.reverse_cons, List.reverse_nil, List.nil_append,
      List.singleton_append]
    rw [List.dropWhile_cons, if_pos (by decide), List.dropWhile_cons,
      if_neg (by decide)]
    simp
  have hshape : beginSentinel ++ [10] ++ tok ++ [10] ++ endSentinel ++ [10] =
      beginSentinel ++ ([10] ++ (tok ++ ([10] ++ (endSentinel ++ [10])))) := by
    simp [List.append_assoc]
  have hL : (beginSentinel ++ ([10] ++ (tok ++ ([10] ++ (endSentinel ++
      [10]))))).dropWhile pyIsSpace =
      beginSentinel ++ ([10] ++ (tok ++ ([10] ++ (endSentinel ++ [10])))) := by
    show ((66 : Nat) :: ([69, 71, 73, 78, 95, 69, 84, 65] ++ ([10] ++ (tok ++
      ([10] ++ (endSentinel ++ [10])))))).dropWhile pyIsSpace = _
    exact dropWhile_cons_nospace (by decide)
  have hshape2 : beginSentinel ++ ([10] ++ (tok ++ ([10] ++ (endSentinel ++ [10])))) =
      ((beginSentinel ++ [10] ++ tok ++ [10] ++ [69, 78, 68, 95, 69, 84]) ++ [65]) ++
        [10] := by
    simp [endSentinel, List.append_assoc]
  have hshape3 : (beginSentinel ++ [10] ++ tok ++ [10] ++ [69, 78, 68, 95, 69, 84]) ++
      [65] = beginSentinel ++ [10] ++ tok ++ [10] ++ endSentinel := by
    simp [endSentinel, List.append_assoc]
  unfold pyStrip
  rw [hshape, hL, hshape2, key, hshape3]

/-- Scanner step: a non-terminator character is accumulated into the
current line. -/
theorem splitlinesAux_cons_noterm {c c2 : Nat} {r cur : List Nat}
    (hc : isLineTerm c = false) (hc13 : c ≠ 13) :
    splitlinesAux (c :: c2 :: r) cur = splitlinesAux (c2 :: r) (c :: cur) := by
  simp only [splitlinesAux]
  rw [if_neg (by intro hh; exact hc13 hh.1), if_neg (by simp [hc])]

/-- Scanner step: a newline closes the current line; scanning continues on
the nonempty remainder. -/
theorem splitlinesAux_newline {r cur : List Nat} (hr : r ≠ []) :
    splitlinesAux (10 :: r) cur = cur.reverse :: splitlinesAux r [] := by
  rcases r with _ | ⟨r0, r1⟩
  · exact absurd rfl hr
  · simp only [splitlinesAux]
    rw [if_neg (by intro hh; exact absurd hh.1 (by decide)), if_pos (by decide)]

/-- The splitlines scanner copies a terminator-free list into the current
line. -/
theorem splitlines_noterm_end : ∀ (line : List Nat),
    (∀ c ∈ line, isLineTerm c = false) →
    ∀ (cur : List Nat), splitlinesAux line cur = [cur.reverse ++ line]
  | [], _, cur => by simp [splitlinesAux]
  | [c], hl, cur => by
    have hc : isLineTerm c = false := hl c (by simp)
    simp [splitlinesAux, hc]
  | c :: c2 :: r, hl, cur => by
    have hc : isLineTerm c = false := hl c (by simp)
    have hc13 : c ≠ 13 := by
      intro hh
      rw [hh] at hc
      exact absurd hc (by decide)
    rw [splitlinesAux_cons_noterm hc hc13]
    rw [splitlines_noterm_end (c2 :: r) (fun a ha => hl a (by simp [ha])) (c :: cur)]
    simp

/-- The splitlines scanner closes the current line at a newline and
continues on the nonempty remainder. -/
theorem splitlines_term_step : ∀ (line : List Nat),
    (∀ c ∈ line, isLineTerm c = false) →
    ∀ (rest : List Nat), rest ≠ [] → ∀ (cur : List Nat),
    splitlinesAux (line ++ 10 :: rest) cur =
      (cur.reverse ++ line) :: splitlinesAux rest []
  | [], _, rest, hrest, cur => by
    rw [List.nil_append, splitlinesAux_newline hrest]
    simp
  | c :: line2, hl, rest, hrest, cur => by
    have hc : isLineTerm c = false := hl c (by simp)
    have hc13 : c ≠ 13 := by
      intro hh
      rw [hh] at hc
      exact absurd hc (by decide)
    rcases line2 with _ | ⟨a, t⟩
    · show splitlinesAux (c :: 10 :: rest) cur =
        (cur.reverse ++ [c]) :: splitlinesAux rest []
      rw [splitlinesAux_cons_noterm hc hc13, splitlinesAux_newline hrest]
      simp
    · show splitlinesAux (c :: a :: (t ++ 10 :: rest)) cur =
        (cur.reverse ++ c :: a :: t) :: splitlinesAux rest []
      rw [splitlinesAux_cons_noterm hc hc13]
      rw [show a :: (t ++ 10 :: rest) = (a :: t) ++ 10 :: rest from rfl]
      rw [splitlines_term_step (a :: t) (fun u hu => hl u (by simp [hu])) rest
        hrest (c :: cur)]
      simp

/-- Splitting the stripped container content yields exactly the three
logical lines, provided the token contains no line terminator. -/
theorem pySplitlines_content {tok : List Nat}
    (htok : ∀ c ∈ tok, isLineTerm c = false) :
    pySplitlines (beginSentinel ++ [10] ++ tok ++ [10] ++ endSentinel) =
      [beginSentinel, tok, endSentinel] := by
  have hb : ∀ c ∈ beginSentinel, isLineTerm c = false := by decide
  have he : ∀ c ∈ endSentinel, isLineTerm c = false := by decide
  have hshape : beginSentinel ++ [10] ++ tok ++ [10] ++ endSentinel =
      beginSentinel ++ (10 :: (tok ++ 10 :: endSentinel)) := by
    simp [List.append_assoc]
  show pySplitlines (beginSentinel ++ [10] ++ tok ++ [10] ++ endSentinel) = _
  have hne : beginSentinel ++ [10] ++ tok ++ [10] ++ endSentinel =
      66 :: ([69, 71, 73, 78, 95, 69, 84, 65] ++ [10] ++ tok ++ [10] ++ endSentinel) := by
    simp [beginSentinel]
  rw [hne]
  unfold pySplitlines
  rw [show (66 : Nat) :: ([69, 71, 73, 78, 95, 69, 84, 65] ++ [10] ++ tok ++
    [10] ++ endSentinel) = beginSentinel ++ (10 :: (tok ++ 10 :: endSentinel)) from by
      simp [beginSentinel, List.append_assoc]]
  rw [show (beginSentinel ++ (10 :: (tok ++ 10 :: endSentinel))) =
    beginSentinel ++ 10 :: (tok ++ 10 :: endSentinel) from rfl]
  rw [splitlines_term_step beginSentinel hb (tok ++ 10 :: endSentinel) (by simp) []]
  rw [splitlines_term_step tok htok endSentinel (by simp [endSentinel]) []]
  rw [splitlines_noterm_end endSentinel he []]
  simp

/-- Reading the content written for an encoded token decodes that token. -/
theorem read_of_write {x : EtaInput} {tok : List Nat}
    (h : encode_datetime x = .ok tok) :
    read_eta_file (beginSentinel ++ [10] ++ tok ++ [10] ++ endSentinel ++ [10]) =
      decode_eta tok := by
  have hsym := encode_tok_sym h
  have hnoterm : ∀ c ∈ tok, isLineTerm c = false := by
    intro c hc
    have := hsym c hc
    unfold isLineTerm
    rw [decide_eq_false_iff_not]
    omega
  have hneqb : tok ≠ beginSentinel := by
    intro he
    have h66 : (66 : Nat) ∈ tok := by rw [he]; decide
    have := hsym 66 h66
    omega
  have hneqe : tok ≠ endSentinel := by
    intro he
    have h69 : (69 : Nat) ∈ tok := by rw [he]; decide
    have := hsym 69 h69
    omega
  unfold read_eta_file
  rw [pyStrip_content, pySplitlines_content hnoterm]
  have d1 : (decide (beginSentinel ≠ beginSentinel ∧ beginSentinel ≠ endSentinel)) =
      false := by decide
  have d3 : (decide (endSentinel ≠ beginSentinel ∧ endSentinel ≠ endSentinel)) =
      false := by decide
  have d2 : (decide (tok ≠ beginSentinel ∧ tok ≠ endSentinel)) = true := by
    rw [decide_eq_true_eq]
    exact ⟨hneqb, hneqe⟩
  simp [List.filter, d1, d2, d3]

/-! Concrete values used by the claim theorems. -/

/-- Codepoints of the spec's golden input string `2024-01-01 00:00:00`. -/
def goldenInput : List Nat :=
  [50, 48, 50, 52, 45, 48, 49, 45, 48, 49, 32, 48, 48, 58, 48, 48, 58, 48, 48]

/-- The token `encode_datetime` produces for the golden input. -/
def goldenToken : List Nat :=
  [98, 100, 50, 108, 56, 103, 97, 118, 57, 49, 50, 107, 50, 104, 50, 53, 97, 57,
   101, 104, 101, 114, 111, 114, 52, 99, 97, 49, 105, 113, 106, 98, 100, 56, 98,
   103, 105, 113, 106, 98, 100, 56, 98, 103, 105, 54, 114, 98, 100, 56, 98, 104,
   115, 114, 114, 98, 100, 56, 98, 104, 115, 114, 114, 98, 100, 56, 98, 104, 109,
   112, 114, 55, 98, 100, 50, 108, 56, 103, 97, 118, 56, 112, 55, 107, 117, 108,
   50, 53, 97, 57, 101, 103, 61, 61, 61, 61]

/-- The token `encode_datetime` produces for the one-character input `a`. -/
def tokenOfA : List Nat :=
  [98, 100, 50, 108, 56, 103, 97, 118, 57, 49, 50, 107, 50, 104, 50, 53, 97, 57,
   101, 103, 54, 50, 114, 55, 99, 116, 100, 107, 97, 108, 50, 49, 98, 116, 51,
   52, 117, 106, 113, 107, 56, 108, 57, 53, 113, 61, 61, 61]

/-- A well-framed token whose intermediate text `A` fails the final base64
decode, exercising the fallback. -/
def fallbackToken : List Nat :=
  [98, 100, 50, 108, 56, 103, 97, 118, 57, 49, 50, 107, 50, 104, 50, 53, 97, 57,
   101, 104, 109, 109, 113, 53, 97, 104, 48, 108, 117, 104, 105, 102, 57, 116,
   97, 52, 97, 107, 105, 116]

/-! Claim theorems. -/

/-- C1, counterexample: for the input string `b` (codepoint 98), decoding the
encoded token yields `c` (codepoint 99) — a value that is neither the
original string nor the substituted intermediate text, so the claim as
stated is false. -/
theorem c1_counterexample :
    Except.bind (encode_datetime (.str [98])) decode_eta = .ok [99] ∧
    ([99] : List Nat) ≠ [98] ∧ ([99] : List Nat) ≠ substText (.str [98]) := by
  refine ⟨by decide, by decide, by decide⟩

/-- C1, amended: for every input accepted by encode, decoding the encoded
token succeeds and returns the Codec64+UTF-8 reinterpretation of the
substituted intermediate text when that reinterpretation succeeds (this case
includes the original string), and the substituted intermediate text itself
otherwise — never any further value. -/
theorem c1_amended {x : EtaInput} {tok : List Nat}
    (h : encode_datetime x = .ok tok) :
    ∃ r, decode_eta tok = .ok r ∧
      (b64Reinterpret (substText x) = some r ∨
       (b64Reinterpret (substText x) = none ∧ r = substText x)) := by
  have hpre := decodePre_encode h
  refine ⟨reinterpretOrFallback (substText x), decode_eta_of_pre hpre, ?_⟩
  unfold reinterpretOrFallback
  cases hr : b64Reinterpret (substText x) with
  | none => exact Or.inr ⟨rfl, by simp⟩
  | some r2 => exact Or.inl (by simp)

/-- C1, witness: the amended claim applied to the concrete input `a`. -/
theorem c1_witness :
    ∃ r, decode_eta tokenOfA = .ok r ∧
      (b64Reinterpret (substText (.str [97])) = some r ∨
       (b64Reinterpret (substText (.str [97])) = none ∧
        r = substText (.str [97]))) :=
  c1_amended (by decide)

/-- C2, counterexample: corrupting the middle character at position 19 of
the golden token (replacing `h` by `o`) makes `decode_eta` raise a Unicode
decoding error — an error kind outside the two kinds the claim allows, so
the claim as stated is false. -/
theorem c2_counterexample :
    encode_datetime (.str goldenInput) = .ok goldenToken ∧
    (0 < 19 ∧ 19 < goldenToken.length - 1) ∧
    goldenToken.getD 19 0 ≠ 111 ∧
    decode_eta (goldenToken.set 19 111) = .error .unicodeDecode ∧
    PyErr.unicodeDecode ≠ PyErr.malformedEncoding ∧
    PyErr.unicodeDecode ≠ PyErr.frameFormat := by
  refine ⟨by decide, by decide, by decide, by decide, by decide, by decide⟩

/-- C2, amended: on any single-character corruption (by a Unicode scalar) in
the middle of a token produced by encode, `decode_eta` raises
`MalformedEncodingError`, `FrameFormatError` or a Unicode decoding error, or
returns the guarded final-stage result on the corrupted token's own
intermediate text (the fallback text or its successful Codec64+UTF-8
reinterpretation) — no other outcome. -/
theorem c2_amended {x : EtaInput} {tok : List Nat}
    (h : encode_datetime x = .ok tok) (i c : Nat) (hi1 : 0 < i)
    (hi2 : i < tok.length - 1) (hc : isScalar c = true) :
    decode_eta (tok.set i c) = .error .malformedEncoding ∨
    decode_eta (tok.set i c) = .error .frameFormat ∨
    decode_eta (tok.set i c) = .error .unicodeDecode ∨
    ∃ pre, decodePre (tok.set i c) = some pre ∧
      decode_eta (tok.set i c) = .ok (reinterpretOrFallback pre) := by
  apply decode_cases
  apply utf8Encode_scalar
  intro a ha
  rcases List.mem_or_eq_of_mem_set ha with ha2 | rfl
  · have hsym := encode_tok_sym h a ha2
    unfold isScalar
    simp only [Bool.and_eq_true, Bool.not_eq_true', Bool.and_eq_false_iff,
      decide_eq_true_eq, decide_eq_false_iff_not]
    omega
  · exact hc

/-- C2, witness: the amended claim applied to the golden token corrupted at
position 19. -/
theorem c2_witness :
    decode_eta (goldenToken.set 19 111) = .error .malformedEncoding ∨
    decode_eta (goldenToken.set 19 111) = .error .frameFormat ∨
    decode_eta (goldenToken.set 19 111) = .error .unicodeDecode ∨
    ∃ pre, decodePre (goldenToken.set 19 111) = some pre ∧
      decode_eta (goldenToken.set 19 111) = .ok (reinterpretOrFallback pre) :=
  c2_amended (show encode_datetime (.str goldenInput) = .ok goldenToken by decide)
    19 111 (by decide) (by decide) (by decide)

/-- C3: the final base64 decode is the single recovered failure of the
decode pipeline. First conjunct: when the first three stages succeed and the
guarded base64 stage fails, `decode_eta` does not raise and returns the
intermediate text. Remaining conjuncts: failures of the base32hex decode,
the frame unwrap and the UTF-8 interpretation all propagate as errors. -/
theorem c3_single_recovery :
    (∀ t pre, decodePre t = some pre → b64Reinterpret pre = none →
      decode_eta t = .ok pre) ∧
    (∀ t bs, utf8Encode t = some bs → b32decode bs = none →
      decode_eta t = .error .malformedEncoding) ∧
    (∀ t bs s1, utf8Encode t = some bs → b32decode bs = some s1 →
      struct_unwrap s1 = .error .frameFormat →
      decode_eta t = .error .frameFormat) ∧
    (∀ t bs s1 s2, utf8Encode t = some bs → b32decode bs = some s1 →
      struct_unwrap s1 = .ok s2 → utf8Decode (xor_binary s2) = none →
      decode_eta t = .error .unicodeDecode) := by
  refine ⟨?_, ?_, ?_, ?_⟩
  · intro t pre hpre hfail
    rw [decode_eta_of_pre hpre]
    unfold reinterpretOrFallback
    rw [hfail]
    rfl
  · intro t bs h1 h2
    unfold decode_eta
    simp only [h1, h2]
  · intro t bs s1 h1 h2 h3
    unfold decode_eta
    simp only [h1, h2, h3]
  · intro t bs s1 s2 h1 h2 h3 h4
    unfold decode_eta
    simp only [h1, h2, h3, h4]

/-- C3, witness: the fallback conjunct applied to a concrete well-framed
token whose intermediate text `A` fails base64 decoding. -/
theorem c3_witness : decode_eta fallbackToken = .ok [65] :=
  c3_single_recovery.1 fallbackToken [65] (by decide) (by decide)

/-- C4, counterexample: `decode_eta` on the empty token does not raise
`MalformedEncodingError`, so the claim as stated is false. -/
theorem c4_counterexample : decode_eta [] ≠ .error .malformedEncoding := by
  decide

/-- C4, amended: `decode_eta` on the empty token raises `FrameFormatError`
(the modelled Codec32 decodes the empty string to the empty buffer, whose
frame unwrap fails). -/
theorem c4_amended : decode_eta [] = .error .frameFormat := by decide

/-- C5: frame codec correctness — unwrap of wrap is the identity; a buffer
lacking either marker raises `FrameFormatError`; a buffer carrying both
markers splits as header, interior payload, footer, and unwrap returns
exactly that interior. -/
theorem c5_frame_codec :
    (∀ b, struct_unwrap (struct_wrap b) = .ok b) ∧
    (∀ d, etaHeader.isPrefixOf d = false ∨ etaFooter.isSuffixOf d = false →
      struct_unwrap d = .error .frameFormat) ∧
    (∀ d, etaHeader.isPrefixOf d = true → etaFooter.isSuffixOf d = true →
      ∃ p, d = etaHeader ++ p ++ etaFooter ∧ struct_unwrap d = .ok p) :=
  ⟨struct_unwrap_wrap, fun _ h => struct_unwrap_err h,
   fun _ hp hs => struct_unwrap_markers hp hs⟩

/-- C5, witness: the error and characterization conjuncts applied to the
empty buffer and to a concrete framed buffer. -/
theorem c5_witness :
    struct_unwrap [] = .error .frameFormat ∧
    ∃ p, etaHeader ++ [5] ++ etaFooter = etaHeader ++ p ++ etaFooter ∧
      struct_unwrap (etaHeader ++ [5] ++ etaFooter) = .ok p :=
  ⟨c5_frame_codec.2.1 [] (by decide),
   c5_frame_codec.2.2 (etaHeader ++ [5] ++ etaFooter) (by decide) (by decide)⟩

/-- C6: per-character behavior of the substitution passes — table A maps
each character in `a`..`p` to the single digit character of
`((code - 97) % 5) + 1` and leaves every other character unchanged; table B
maps each character in `f`..`x` to the literal decimal rendering of
`((code - 102) % 4) + 9` (one or two characters) and leaves every other
character unchanged. -/
theorem c6_substitution (text : List Nat) :
    regex_a_p_transform text =
      (text.map (fun c => if 97 ≤ c ∧ c ≤ 112
        then [48 + ((c - 97) % 5 + 1)] else [c])).flatten ∧
    regex_f_x_transform text =
      (text.map (fun c => if 102 ≤ c ∧ c ≤ 120
        then decimalRender ((c - 102) % 4 + 9) else [c])).flatten := by
  constructor
  · have hA : ∀ c : Nat, (aTable.lookup c).getD [c] =
        if 97 ≤ c ∧ c ≤ 112 then [48 + ((c - 97) % 5 + 1)] else [c] := by
      intro c
      rw [aTable_char c]
      by_cases h : 97 ≤ c ∧ c ≤ 112
      · rw [if_pos h, if_pos h]
        unfold decimalRender
        rw [if_pos (by omega)]
      · rw [if_neg h, if_neg h]
    unfold regex_a_p_transform
    simp only [hA]
  · unfold regex_f_x_transform
    simp only [fTable_char]

/-- C7: both base codecs satisfy the round-trip law on every byte buffer,
including the empty one. -/
theorem c7_base_codecs {b : List Nat} (hb : ∀ x ∈ b, x < 256) :
    b64decode (b64encode b) = some b ∧ b32decode (b32encode b) = some b :=
  ⟨b64_roundtrip hb, b32_roundtrip hb⟩

/-- C7, witness: the round-trip law at a concrete three-byte buffer. -/
theorem c7_witness :
    b64decode (b64encode [0, 255, 7]) = some [0, 255, 7] ∧
    b32decode (b32encode [0, 255, 7]) = some [0, 255, 7] :=
  c7_base_codecs (by decide)

/-- C8: writing an accepted input and reading the written content back
yields exactly the value `decode_eta` yields on the encoded token directly —
the sentinel-delimited container adds no distortion. -/
theorem c8_container {x : EtaInput} {content : List Nat}
    (h : write_eta_file x = .ok content) :
    ∃ tok, encode_datetime x = .ok tok ∧
      read_eta_file content = decode_eta tok := by
  unfold write_eta_file at h
  cases he : encode_datetime x with
  | error e => rw [he] at h; exact absurd h (by simp)
  | ok tok =>
    rw [he] at h
    have hc : beginSentinel ++ [10] ++ tok ++ [10] ++ endSentinel ++ [10] =
        content := Except.ok.inj h
    exact ⟨tok, rfl, hc ▸ read_of_write he⟩

/-- C8, witness: the container round-trip applied to the concrete input
`a`. -/
theorem c8_witness :
    ∃ tok, encode_datetime (.str [97]) = .ok tok ∧
      read_eta_file (beginSentinel ++ [10] ++ tokenOfA ++ [10] ++
        endSentinel ++ [10]) = decode_eta tok :=
  c8_container (by decide)

/-- C9: the fallback protects only the final base64 stage — there is a
token that base32hex-decodes successfully and carries correct frame markers
whose decode raises a Unicode decoding error, an error kind that is neither
`MalformedEncodingError` nor `FrameFormatError` and not the documented
fallback. -/
theorem c9_unprotected_utf8 :
    ∃ t s1 s2, utf8Encode t = some t ∧ b32decode t = some s1 ∧
      struct_unwrap s1 = .ok s2 ∧
      decode_eta t = .error .unicodeDecode ∧
      PyErr.unicodeDecode ≠ PyErr.malformedEncoding ∧
      PyErr.unicodeDecode ≠ PyErr.frameFormat := by
  refine ⟨b32encode (struct_wrap [165]), struct_wrap [165], [165],
    ?_, ?_, ?_, ?_, ?_, ?_⟩ <;> decide

/-- C10, counterexample: the string consisting of the lone surrogate U+D800
is rejected by encode (its UTF-8 encoding raises), so encode does not
succeed on every string. -/
theorem c10_counterexample :
    encode_datetime (.str [55296]) = .error .unicodeEncode := by decide

/-- C10, amended: encode performs no validation or canonicalization on
strings — for every string of Unicode scalar codepoints (arbitrary content,
not only canonical date-times, including the empty string) encode succeeds
and feeds the string itself, unchanged, into the pipeline; only structured
datetime values are formatted to the canonical pattern. -/
theorem c10_amended :
    (∀ s : List Nat, (∀ c ∈ s, isScalar c = true) →
      ∃ bs, utf8Encode s = some bs ∧
        encode_datetime (.str s) = .ok (b32encode (struct_wrap (xor_binary
          (regex_f_x_transform (regex_a_p_transform (b64encode bs))))))) ∧
    (∀ y mo d h mi sec, encode_datetime (.dt y mo d h mi sec) =
      encode_datetime (.str (strftimeCanon y mo d h mi sec))) := by
  constructor
  · intro s hs
    obtain ⟨bs, hbs⟩ := utf8Encode_scalar hs
    exact ⟨bs, hbs, encode_eval (x := .str s) hbs⟩
  · intro y mo d h mi sec
    rfl

/-- C10, witness: the amended claim applied to the concrete one-character
string `a`. -/
theorem c10_witness :
    ∃ bs, utf8Encode [97] = some bs ∧
      encode_datetime (.str [97]) = .ok (b32encode (struct_wrap (xor_binary
        (regex_f_x_transform (regex_a_p_transform (b64encode bs)))))) :=
  c10_amended.1 [97] (by decide)

end EtaCodec
